import Mathlib

/-!
Verification development for the todo-chat orchestration service.

The definitions below are a shallow embedding of the repository's code:

* `TodoChat.Task`, `TodoChat.Store` — the `todos` table consumed by the edge
  function (`supabase/functions/todo-chat/index.ts`), rows kept in insertion
  order; `tick` models the store's id sequence / clock for inserts.
* `TodoChat.executeTool` — the `executeTool` function of the edge function.
  Store failures are abstracted by an error script `errs`: entry `i` is the
  outcome the store reports for the `i`-th database call of the invocation
  (`some msg` = the call fails with message `msg`, `none` = it succeeds).
* `TodoChat.tools` — the static tool catalog.
* `TodoChat.toolLoop`, `TodoChat.handle` — the `serve` handler: first model
  call, the bounded tool-call loop, and the error branches.  The model client
  is a parameter `model : List CMsg → CallResult`.
* `TodoChat.sseEncode` — the ReadableStream start callback (Stream Encoder).
* `TodoChat.drain`, `TodoChat.runConsumer` — the client stream consumer of
  `src/pages/Chat.tsx` (`send`): buffering, line splitting, `data:` parsing,
  `[DONE]` handling, push-back on malformed payloads, and the tail flush.
-/

namespace TodoChat

/-- A row of the `todos` table: `id, user_id, title, completed, due_at,
created_at` (the timestamp trigger column `updated_at` is maintained by the
database, not by the executor, and is omitted). `created_at` is a logical
clock value. -/
structure Task where
  id : Nat
  user_id : String
  title : String
  completed : Bool
  due_at : Option String
  created_at : Nat
deriving Repr, DecidableEq

/-- The task store: table rows in insertion order plus the id/clock counter
used for new inserts. -/
structure Store where
  rows : List Task
  tick : Nat
deriving Repr, DecidableEq

/-- The tasks belonging to one user, in store order. -/
def tasksOf (u : String) (rows : List Task) : List Task :=
  rows.filter (fun t => t.user_id == u)

/-- Substring scan: does `pat` occur contiguously inside `s`? -/
def substrAux (pat : List Char) : List Char → Bool
  | [] => pat.isEmpty
  | c :: t => pat.isPrefixOf (c :: t) || substrAux pat t

/-- Case-insensitive substring containment: the semantics of the
`ilike '%' + pat + '%'` filters built by the executor (ASCII case folding;
SQL wildcard characters inside `pat` itself are not modelled; no claim
involves them). -/
def ilikeMatch (pat s : String) : Bool :=
  substrAux (pat.data.map Char.toLower) (s.data.map Char.toLower)

/-- JavaScript template interpolation of a possibly-undefined string
argument: an absent field renders as the text `undefined`. -/
def argStr : Option String → String
  | some s => s
  | none => "undefined"

/-- JavaScript truthiness of a possibly-absent string (the empty string is
falsy). -/
def truthyS : Option String → Bool
  | some s => !(s == "")
  | none => false

/-- The `arguments` object of a tool call, with the five argument fields the
catalog declares.  An absent field models a JSON payload without that key. -/
structure Args where
  title : Option String := none
  due_at : Option String := none
  completed : Option Bool := none
  old_title : Option String := none
  new_title : Option String := none
deriving Repr, DecidableEq

/-- Descending insertion by `created_at` (stable). -/
def insertDesc (t : Task) : List Task → List Task
  | [] => [t]
  | a :: l => if a.created_at < t.created_at then t :: a :: l else a :: insertDesc t l

/-- `order("created_at", descending)` of the `list_todos` query. -/
def sortByCreatedDesc (l : List Task) : List Task :=
  l.foldr insertDesc []

/-- Modelled rendering of `new Date(d).toLocaleDateString()`.  The real
rendering is locale dependent; no claim depends on the exact text, so the
model renders the stored ISO string itself. -/
def localeDateString (d : String) : String := d

/-- One numbered line of the `list_todos` output. -/
def listLine (it : Nat × Task) : String :=
  let due := match it.2.due_at with
    | some d => " [due: " ++ localeDateString d ++ "]"
    | none => ""
  toString (it.1 + 1) ++ ". [" ++ (if it.2.completed then "✓" else " ") ++ "] "
    ++ it.2.title ++ due

/-- The failure reported by the store for the `i`-th database call of one
invocation (`none` = the call succeeds). -/
def errAt (errs : List (Option String)) (i : Nat) : Option String :=
  errs.getD i none

/-- The `executeTool` function of the edge function.  `errs` is the store's
error script for this invocation: entry `i` is the failure reported by the
`i`-th database call (`none` = success).  On a failed `select` used for
substring resolution the code discards the error object and sees `null`
data, hence the no-match text on that path.  For `add_todo` the inserted
title is the interpolated argument; a missing `title` making the insert
violate the NOT NULL constraint is one instance of a scripted store
failure. -/
def executeTool (name : String) (args : Args) (userId : String)
    (errs : List (Option String)) (s : Store) : String × Store :=
  if name == "add_todo" then
    match errAt errs 0 with
    | some msg => ("Error: " ++ msg, s)
    | none =>
      let title := argStr args.title
      let due := if truthyS args.due_at then args.due_at else none
      let row : Task := ⟨s.tick, userId, title, false, due, s.tick⟩
      let dueStr := match due with
        | some d => " (due: " ++ d ++ ")"
        | none => ""
      ("Added task: \"" ++ title ++ "\"" ++ dueStr, ⟨s.rows ++ [row], s.tick + 1⟩)
  else if name == "list_todos" then
    match errAt errs 0 with
    | some msg => ("Error: " ++ msg, s)
    | none =>
      let base := s.rows.filter (fun t => t.user_id == userId &&
        (match args.completed with
         | some b => t.completed == b
         | none => true))
      let data := sortByCreatedDesc base
      if data.isEmpty then ("No tasks found.", s)
      else (String.intercalate "\n" (data.enum.map listLine), s)
  else if name == "toggle_todo" then
    let pat := argStr args.title
    match errAt errs 0 with
    | some _ => ("No task found matching \"" ++ pat ++ "\"", s)
    | none =>
      match (s.rows.filter (fun t => t.user_id == userId && ilikeMatch pat t.title)).head? with
      | none => ("No task found matching \"" ++ pat ++ "\"", s)
      | some todo =>
        match errAt errs 1 with
        | some msg => ("Error: " ++ msg, s)
        | none =>
          ((if todo.completed then "Uncompleted" else "Completed") ++ ": \"" ++ todo.title ++ "\"",
           ⟨s.rows.map (fun r => if r.id == todo.id then { r with completed := !todo.completed } else r),
            s.tick⟩)
  else if name == "delete_todo" then
    if args.title == some "__completed__" then
      match errAt errs 0 with
      | some msg => ("Error: " ++ msg, s)
      | none =>
        ("Deleted all completed tasks.",
         ⟨s.rows.filter (fun r => !(r.user_id == userId && r.completed)), s.tick⟩)
    else
      let pat := argStr args.title
      match errAt errs 0 with
      | some _ => ("No task found matching \"" ++ pat ++ "\"", s)
      | none =>
        match (s.rows.filter (fun t => t.user_id == userId && ilikeMatch pat t.title)).head? with
        | none => ("No task found matching \"" ++ pat ++ "\"", s)
        | some todo =>
          match errAt errs 1 with
          | some msg => ("Error: " ++ msg, s)
          | none =>
            ("Deleted: \"" ++ todo.title ++ "\"",
             ⟨s.rows.filter (fun r => !(r.id == todo.id)), s.tick⟩)
  else if name == "update_todo" then
    let pat := argStr args.old_title
    let newTitle := argStr args.new_title
    match errAt errs 0 with
    | some _ => ("No task found matching \"" ++ pat ++ "\"", s)
    | none =>
      match (s.rows.filter (fun t => t.user_id == userId && ilikeMatch pat t.title)).head? with
      | none => ("No task found matching \"" ++ pat ++ "\"", s)
      | some todo =>
        match errAt errs 1 with
        | some msg => ("Error: " ++ msg, s)
        | none =>
          ("Updated \"" ++ todo.title ++ "\" → \"" ++ newTitle ++ "\"",
           ⟨s.rows.map (fun r => if r.id == todo.id then { r with title := newTitle } else r),
            s.tick⟩)
  else
    ("Unknown tool: " ++ name, s)

/-- One declared parameter of a catalog entry. -/
structure ParamDecl where
  pname : String
  ptype : String
deriving Repr, DecidableEq

/-- One entry of the static tool catalog. -/
structure ToolDecl where
  name : String
  description : String
  params : List ParamDecl
  required : List String
deriving Repr, DecidableEq

/-- The `tools` constant of the edge function: the immutable catalog sent on
every model call. -/
def tools : List ToolDecl :=
  [⟨"add_todo",
    "Add a new task/todo for the user. Can optionally set a due date.",
    [⟨"title", "string"⟩, ⟨"due_at", "string"⟩], ["title"]⟩,
   ⟨"list_todos",
    "List all tasks/todos for the user. Can filter by completion status.",
    [⟨"completed", "boolean"⟩], []⟩,
   ⟨"toggle_todo",
    "Toggle the completion status of a task by its title (partial match)",
    [⟨"title", "string"⟩], ["title"]⟩,
   ⟨"delete_todo",
    "Delete a task by its title (partial match). Can also delete all completed tasks.",
    [⟨"title", "string"⟩], ["title"]⟩,
   ⟨"update_todo",
    "Update the title of an existing task",
    [⟨"old_title", "string"⟩, ⟨"new_title", "string"⟩], ["old_title", "new_title"]⟩]

/-- A tool call requested by the model: identifier, function name, and the
already-parsed JSON arguments. -/
structure ToolCall where
  id : String
  name : String
  args : Args
deriving Repr, DecidableEq

/-- The assistant message of a completion response: optional text content and
the optional `tool_calls` array (absence of the field is what ends the
loop). -/
structure AMsg where
  content : Option String
  tool_calls : Option (List ToolCall)
deriving Repr, DecidableEq

/-- A message of the model-facing conversation transcript. -/
inductive CMsg where
  | plain (role : String) (content : String)
  | fromModel (m : AMsg)
  | toolResult (tool_call_id : String) (content : String)
deriving Repr, DecidableEq

/-- Outcome of one completion request: a parsed assistant message, or a
non-success HTTP status. -/
inductive CallResult where
  | ok (msg : AMsg)
  | err (status : Nat)
deriving Repr, DecidableEq

/-- The system prompt, with the current wall-clock time `now` embedded. -/
def systemPrompt (now : String) : String :=
  "You are a friendly and concise AI task manager called todo.ai. You help users manage their tasks through conversation.\nCurrent date/time: "
    ++ now
    ++ ".\n\nWhen users ask to add, list, complete, delete, or update tasks, use the available tools.\nWhen a user mentions a deadline or due date, parse it into ISO 8601 and pass it as due_at.\nWhen listing tasks, format them nicely and mention due dates. Be brief and helpful.\nIf a user's request is ambiguous, ask for clarification.\nAlways confirm actions you've taken."

/-- The iteration cap of the tool-call loop. -/
def MAX_ITERATIONS : Nat := 5

/-- Final state of the tool-call loop: last assistant message, transcript,
store, the `iterations` counter, and the number of tool executions
performed. -/
structure LoopResult where
  am : AMsg
  conv : List CMsg
  store : Store
  iterations : Nat
  execCount : Nat
deriving Repr, DecidableEq

/-- Sequential execution of the tool calls of one assistant message, each
result appended to the transcript as a tool message.  `dbo` is the store's
error script, indexed by the running count of tool executions in this
request. -/
def execCalls (userId : String) (dbo : Nat → List (Option String)) :
    List ToolCall → Nat → Store → List CMsg → Store × List CMsg × Nat
  | [], n, st, conv => (st, conv, n)
  | c :: rest, n, st, conv =>
    let r := executeTool c.name c.args userId (dbo n) st
    execCalls userId dbo rest (n + 1) r.2 (conv ++ [CMsg.toolResult c.id r.1])

/-- The `while (assistantMessage.tool_calls && iterations < MAX_ITERATIONS)`
loop of the serve handler, written with an explicit recursion bound: push
the assistant message, execute its tool calls, re-call the model; a failed
follow-up call breaks out of the loop keeping the current assistant message.
The bound argument only enables structural recursion; `toolLoop` supplies
one more than the remaining iterations, so the `0` case is never the reason
the loop stops. -/
def toolLoopGo (model : List CMsg → CallResult) (userId : String)
    (dbo : Nat → List (Option String)) :
    Nat → Nat → Nat → List CMsg → AMsg → Store → LoopResult
  | 0, iterations, execCount, conv, am, store => ⟨am, conv, store, iterations, execCount⟩
  | fuel + 1, iterations, execCount, conv, am, store =>
    if am.tool_calls.isSome ∧ iterations < MAX_ITERATIONS then
      let calls := am.tool_calls.getD []
      let conv1 := conv ++ [CMsg.fromModel am]
      let r := execCalls userId dbo calls execCount store conv1
      match model r.2.1 with
      | CallResult.ok am2 =>
        toolLoopGo model userId dbo fuel (iterations + 1) r.2.2 r.2.1 am2 r.1
      | CallResult.err _ => ⟨am, r.2.1, r.1, iterations + 1, r.2.2⟩
    else ⟨am, conv, store, iterations, execCount⟩

/-- The tool-call loop of the serve handler. -/
def toolLoop (model : List CMsg → CallResult) (userId : String)
    (dbo : Nat → List (Option String)) (iterations execCount : Nat)
    (conv : List CMsg) (am : AMsg) (store : Store) : LoopResult :=
  toolLoopGo model userId dbo (MAX_ITERATIONS + 1 - iterations) iterations execCount conv am store

/-- `assistantMessage.content || "Done!"`: JavaScript falls through to the
fallback on a missing and on an empty content string, so the settled answer
text is never empty. -/
def orFallback : Option String → String
  | some s => if s == "" then "Done!" else s
  | none => "Done!"

/-- The response value of the serve handler: a JSON error body with a status,
or a 200 `text/event-stream` response carrying the settled content. -/
inductive HttpOut where
  | jsonErr (status : Nat) (errMsg : String)
  | stream (content : String)
deriving Repr, DecidableEq

/-- The JSON request body: the client-supplied history (role/content pairs)
and the `userId` field (absent or empty models a non-truthy value). -/
structure ReqBody where
  messages : List (String × String)
  userId : Option String
deriving Repr, DecidableEq

/-- `allMessages`: system prompt followed by the mapped client history. -/
def initMsgs (now : String) (body : ReqBody) : List CMsg :=
  CMsg.plain "system" (systemPrompt now) :: body.messages.map (fun m => CMsg.plain m.1 m.2)

/-- The serve handler: userId guard, first model call with its distinct error
branches, the tool loop, and the final streamed response. -/
def handle (model : List CMsg → CallResult) (now : String) (body : ReqBody)
    (dbo : Nat → List (Option String)) (store : Store) : HttpOut × Store :=
  if !(truthyS body.userId) then (HttpOut.jsonErr 400 "userId is required", store)
  else
    let userId := (body.userId).getD ""
    let allMessages := initMsgs now body
    match model allMessages with
    | CallResult.err status =>
      if status == 429 then (HttpOut.jsonErr 429 "Rate limited", store)
      else if status == 402 then (HttpOut.jsonErr 402 "Payment required", store)
      else (HttpOut.jsonErr 500 "AI gateway error", store)
    | CallResult.ok am0 =>
      let r := toolLoop model userId dbo 0 0 allMessages am0 store
      (HttpOut.stream (orFallback r.am.content), r.store)

/-- Hexadecimal digit character (lowercase), as emitted by JSON
stringification of control characters. -/
def hexDigit (n : Nat) : Char :=
  Char.ofNat (if n < 10 then 48 + n else 87 + n)

/-- Value of a hexadecimal digit character. -/
def hexVal (c : Char) : Option Nat :=
  if '0' ≤ c ∧ c ≤ '9' then some (c.toNat - 48)
  else if 'a' ≤ c ∧ c ≤ 'f' then some (c.toNat - 87)
  else if 'A' ≤ c ∧ c ≤ 'F' then some (c.toNat - 55)
  else none

/-- JSON string escaping of one character, as performed by
`JSON.stringify`. -/
def escChar (c : Char) : List Char :=
  if c = '"' then ['\\', '"']
  else if c = '\\' then ['\\', '\\']
  else if c = '\n' then ['\\', 'n']
  else if c = '\r' then ['\\', 'r']
  else if c = '\t' then ['\\', 't']
  else if c = '\x08' then ['\\', 'b']
  else if c = '\x0c' then ['\\', 'f']
  else if c.toNat < 32 then
    ['\\', 'u', '0', '0', hexDigit (c.toNat / 16), hexDigit (c.toNat % 16)]
  else [c]

/-- JSON string escaping (`JSON.stringify` body of a string literal). -/
def escape : List Char → List Char
  | [] => []
  | c :: r => escChar c ++ escape r

/-- JSON string unescaping (`JSON.parse` of a string literal body): fails on
a stray quote, an unescaped control character, or a malformed escape. -/
def unescape : List Char → Option (List Char)
  | [] => some []
  | c :: r =>
    if c = '\\' then
      match r with
      | [] => none
      | e :: r1 =>
        if e = '"' then (unescape r1).map (fun l => '"' :: l)
        else if e = '\\' then (unescape r1).map (fun l => '\\' :: l)
        else if e = '/' then (unescape r1).map (fun l => '/' :: l)
        else if e = 'n' then (unescape r1).map (fun l => '\n' :: l)
        else if e = 'r' then (unescape r1).map (fun l => '\r' :: l)
        else if e = 't' then (unescape r1).map (fun l => '\t' :: l)
        else if e = 'b' then (unescape r1).map (fun l => '\x08' :: l)
        else if e = 'f' then (unescape r1).map (fun l => '\x0c' :: l)
        else if e = 'u' then
          match r1 with
          | a :: b :: c2 :: d :: r2 =>
            match hexVal a, hexVal b, hexVal c2, hexVal d with
            | some w, some x, some y, some z =>
              (unescape r2).map (fun l => Char.ofNat (4096 * w + 256 * x + 16 * y + z) :: l)
            | _, _, _, _ => none
          | _ => none
        else none
    else if c = '"' ∨ c.toNat < 32 then none
    else (unescape r).map (fun l => c :: l)

/-- The SSE line prefix the encoder writes and the consumer strips. -/
def dataPre : List Char := "data: ".data

/-- The terminal sentinel payload. -/
def doneLit : List Char := "[DONE]".data

/-- Characters of the stringified wrapper up to the content string. -/
def wrapPre : List Char := "\x7b\"choices\":[\x7b\"delta\":\x7b\"content\":\"".data

/-- Characters of the stringified wrapper after the content string. -/
def wrapSuf : List Char := "\"\x7d\x7d]\x7d".data

/-- `JSON.stringify` of the single delta object the encoder emits. -/
def jsonPayload (t : String) : List Char :=
  wrapPre ++ escape t.data ++ wrapSuf

/-- The Stream Encoder: the byte stream enqueued by the ReadableStream start
callback — one data event carrying the whole settled answer, then the
sentinel. -/
def sseEncode (finalContent : String) : List Char :=
  dataPre ++ jsonPayload finalContent ++ ['\n', '\n']
    ++ dataPre ++ doneLit ++ ['\n', '\n']

/-- `JSON.stringify` of an error body with a single `error` field. -/
def jsonErrBody (m : String) : List Char :=
  "\x7b\"error\":\"".data ++ escape m.data ++ "\"\x7d".data

/-- The HTTP response body of a handler outcome: the framed event stream, or
the JSON error object. -/
def responseBody : HttpOut → List Char
  | HttpOut.jsonErr _ m => jsonErrBody m
  | HttpOut.stream c => sseEncode c

/-- JavaScript string-trim whitespace (the characters relevant here). -/
def isJsSpace (c : Char) : Bool :=
  c = ' ' || c = '\t' || c = '\n' || c = '\r' || c = '\x0b' || c = '\x0c'

/-- `String.prototype.trim`. -/
def trim (l : List Char) : List Char :=
  (((l.dropWhile isJsSpace).reverse).dropWhile isJsSpace).reverse

/-- A message of the visible chat transcript. -/
structure Msg where
  role : String
  content : List Char
deriving Repr, DecidableEq

/-- Consumer state: the visible transcript and the accumulated assistant
text of the current response. -/
structure CState where
  msgs : List Msg
  assistantSoFar : List Char
deriving Repr, DecidableEq

/-- `upsertAssistant` of `Chat.tsx`: extend the in-progress assistant message,
or append a fresh one if the last visible message is not an assistant
message. -/
def upsertAssistant (chunk : List Char) (st : CState) : CState :=
  let asf := st.assistantSoFar ++ chunk
  let msgs := match st.msgs.getLast? with
    | some m =>
      if m.role == "assistant" then st.msgs.dropLast ++ [⟨"assistant", asf⟩]
      else st.msgs ++ [⟨"assistant", asf⟩]
    | none => st.msgs ++ [⟨"assistant", asf⟩]
  ⟨msgs, asf⟩

/-- Strip an expected leading sequence. -/
def stripPre : List Char → List Char → Option (List Char)
  | [], s => some s
  | _ :: _, [] => none
  | p :: ps, c :: cs => if c = p then stripPre ps cs else none

/-- Strip an expected trailing sequence. -/
def stripSuf (suf s : List Char) : Option (List Char) :=
  (stripPre suf.reverse s.reverse).map List.reverse

/-- `JSON.parse` of a data payload followed by the
`parsed.choices?.[0]?.delta?.content` extraction, specialized to the one
payload shape the Stream Encoder produces (the only shape this service ever
puts on the wire): `none` models a parse exception, `some c` a parsed delta
with content `c`. -/
def parseDelta (s : List Char) : Option (Option (List Char)) :=
  match stripPre wrapPre s with
  | none => none
  | some rest =>
    match stripSuf wrapSuf rest with
    | none => none
    | some mid => (unescape mid).map (fun l => some l)

/-- Outcome of processing one complete line in the consumer's inner loop. -/
inductive LineOut where
  | next (st : CState)
  | stop (st : CState)
  | pushback (st : CState)
deriving Repr, DecidableEq

/-- Processing of one newline-terminated line inside the consumer's read
loop: strip a trailing CR, skip comments/blank/non-data lines, stop on the
sentinel, upsert truthy content, push the line back on a parse failure. -/
def procLine (line0 : List Char) (st : CState) : LineOut :=
  let line := if line0.getLast? == some '\r' then line0.dropLast else line0
  if line.head? == some ':' || trim line == [] then LineOut.next st
  else if !(dataPre.isPrefixOf line) then LineOut.next st
  else
    let jsonStr := trim (line.drop 6)
    if jsonStr == doneLit then LineOut.stop st
    else
      match parseDelta jsonStr with
      | some (some c) => LineOut.next (if c == [] then st else upsertAssistant c st)
      | some none => LineOut.next st
      | none => LineOut.pushback st

/-- The consumer's inner `while` over complete lines of the buffer.  The
fuel argument only bounds recursion; `drainB` supplies enough for the whole
buffer. -/
def drain (fuel : Nat) (buf : List Char) (st : CState) : List Char × CState :=
  match fuel with
  | 0 => (buf, st)
  | f + 1 =>
    let before := buf.takeWhile (fun c => !(c == '\n'))
    match buf.dropWhile (fun c => !(c == '\n')) with
    | [] => (buf, st)
    | _ :: rest =>
      match procLine before st with
      | LineOut.next st1 => drain f rest st1
      | LineOut.stop st1 => (rest, st1)
      | LineOut.pushback st1 => (before ++ '\n' :: rest, st1)

/-- Drain all complete lines currently in the buffer. -/
def drainB (buf : List Char) (st : CState) : List Char × CState :=
  drain buf.length buf st

/-- One `reader.read()` step: append the decoded chunk to the buffer and
process its complete lines. -/
def feedChunk (acc : List Char × CState) (chunk : List Char) : List Char × CState :=
  drainB (acc.1 ++ chunk) acc.2

/-- Processing of one raw segment in the final-buffer flush (parse failures
are silently dropped there). -/
def flushLine (st : CState) (raw0 : List Char) : CState :=
  if raw0 == [] then st
  else
    let raw := if raw0.getLast? == some '\r' then raw0.dropLast else raw0
    if raw.head? == some ':' || trim raw == [] then st
    else if !(dataPre.isPrefixOf raw) then st
    else
      let jsonStr := trim (raw.drop 6)
      if jsonStr == doneLit then st
      else
        match parseDelta jsonStr with
        | some (some c) => if c == [] then st else upsertAssistant c st
        | _ => st

/-- The flush of whatever remains in the buffer after the stream ends. -/
def flushTail (buf : List Char) (st : CState) : CState :=
  if trim buf == [] then st
  else (buf.splitOn '\n').foldl flushLine st

/-- The Client Stream Consumer: feed the read chunks through the buffered
line loop, then flush the remainder, starting from the visible transcript
`msgs0`. -/
def runConsumer (chunks : List (List Char)) (msgs0 : List Msg) : CState :=
  let r := chunks.foldl feedChunk ([], ⟨msgs0, []⟩)
  flushTail r.1 r.2

/-- The candidate set of a substring resolution: the executing user's tasks
whose title matches case-insensitively, in store order (exactly the filter
the executor's select performs). -/
def candidates (rows : List Task) (userId pat : String) : List Task :=
  rows.filter (fun t => t.user_id == userId && ilikeMatch pat t.title)

/-- Stated from the spec's words, for comparison with the code: the
most-recently-created candidate of a substring resolution ("takes the
most-recently-created match"). -/
def mostRecentCandidate (rows : List Task) (userId pat : String) : Option Task :=
  (candidates rows userId pat).foldl
    (fun acc t =>
      match acc with
      | none => some t
      | some m => if m.created_at < t.created_at then some t else some m)
    none

/-- A store used as a counterexample: two tasks of user `u1`, both matching
the pattern `milk`, the later-created one second in store order. -/
def s2 : Store :=
  ⟨[⟨0, "u1", "Buy milk", false, none, 0⟩, ⟨1, "u1", "milk shake", false, none, 1⟩], 2⟩

/-- C2, counterexample: with two candidates for the pattern `milk`, the
executor toggles the FIRST match in store order (`Buy milk`, created
earlier), not the most recent candidate (`milk shake`): the resolving select
has no ordering clause, so `limit(1)` takes the store's first matching
row. -/
theorem c2_counterexample :
    (candidates s2.rows "u1" "milk").length = 2
    ∧ mostRecentCandidate s2.rows "u1" "milk" = some ⟨1, "u1", "milk shake", false, none, 1⟩
    ∧ executeTool "toggle_todo" { title := some "milk" } "u1" [] s2
        = ("Completed: \"Buy milk\"",
           ⟨[⟨0, "u1", "Buy milk", true, none, 0⟩, ⟨1, "u1", "milk shake", false, none, 1⟩], 2⟩)
    ∧ ("Buy milk" : String) ≠ "milk shake" := by
  decide

/-- C2, amended: whenever the case-insensitive substring match yields at
least one candidate, toggle/delete/update deterministically act on exactly
one task — the first candidate in the store's return order (which need not
be the most recently created one). -/
theorem c2_first_match_policy (s : Store) (userId pat newTitle : String) (t0 : Task)
    (hhead : (candidates s.rows userId pat).head? = some t0)
    (hpat : pat ≠ "__completed__") :
    executeTool "toggle_todo" { title := some pat } userId [] s
      = ((if t0.completed then "Uncompleted" else "Completed") ++ ": \"" ++ t0.title ++ "\"",
         ⟨s.rows.map (fun r => if r.id == t0.id then { r with completed := !t0.completed } else r),
          s.tick⟩)
    ∧ executeTool "delete_todo" { title := some pat } userId [] s
      = ("Deleted: \"" ++ t0.title ++ "\"",
         ⟨s.rows.filter (fun r => !(r.id == t0.id)), s.tick⟩)
    ∧ executeTool "update_todo" { old_title := some pat, new_title := some newTitle } userId [] s
      = ("Updated \"" ++ t0.title ++ "\" → \"" ++ newTitle ++ "\"",
         ⟨s.rows.map (fun r => if r.id == t0.id then { r with title := newTitle } else r),
          s.tick⟩) := by
  simp only [candidates] at hhead
  refine ⟨?_, ?_, ?_⟩
  · simp [executeTool, errAt, argStr, hhead]
  · simp [executeTool, errAt, argStr, hhead, hpat]
  · simp [executeTool, errAt, argStr, hhead]

/-- C2, witness for the amended theorem at a concrete input with two
candidates. -/
theorem c2_first_match_policy_witness :
    executeTool "toggle_todo" { title := some "milk" } "u1" [] s2
      = ((if false then "Uncompleted" else "Completed") ++ ": \"" ++ "Buy milk" ++ "\"",
         ⟨s2.rows.map (fun r =>
            if r.id == 0 then { r with completed := !false } else r), s2.tick⟩)
    ∧ executeTool "delete_todo" { title := some "milk" } "u1" [] s2
      = ("Deleted: \"" ++ "Buy milk" ++ "\"",
         ⟨s2.rows.filter (fun r => !(r.id == 0)), s2.tick⟩)
    ∧ executeTool "update_todo" { old_title := some "milk", new_title := some "Oat milk" } "u1" [] s2
      = ("Updated \"" ++ "Buy milk" ++ "\" → \"" ++ "Oat milk" ++ "\"",
         ⟨s2.rows.map (fun r => if r.id == 0 then { r with title := "Oat milk" } else r),
          s2.tick⟩) :=
  c2_first_match_policy s2 "u1" "milk" "Oat milk" ⟨0, "u1", "Buy milk", false, none, 0⟩
    (by decide) (by decide)

/-- C6: a tool name outside the catalog returns exactly the literal
`Unknown tool: <name>` and leaves the store untouched — for every store, so
no read influences the result and no mutation occurs. -/
theorem c6_unknown_tool (name : String) (args : Args) (userId : String)
    (errs : List (Option String)) (s : Store)
    (h : name ∉ tools.map (fun d => d.name)) :
    executeTool name args userId errs s = ("Unknown tool: " ++ name, s) := by
  simp only [tools, List.map, List.mem_cons, List.not_mem_nil, or_false, not_or] at h
  obtain ⟨h1, h2, h3, h4, h5⟩ := h
  simp [executeTool, h1, h2, h3, h4, h5]

/-- C6, witness at a concrete unknown name. -/
theorem c6_unknown_tool_witness :
    executeTool "frobnicate" {} "u1" [] ⟨[], 0⟩ = ("Unknown tool: " ++ "frobnicate", ⟨[], 0⟩) :=
  c6_unknown_tool "frobnicate" {} "u1" [] ⟨[], 0⟩ (by decide)

/-- C7, counterexample: the catalog's tool names are not
`add_task, list_tasks, toggle_task, delete_task, update_task`. -/
theorem c7_counterexample :
    tools.map (fun d => d.name)
      ≠ ["add_task", "list_tasks", "toggle_task", "delete_task", "update_task"] := by
  decide

/-- C7, amended: the immutable catalog declares exactly five tools named
`add_todo(title, due_at?)`, `list_todos(completed?)`, `toggle_todo(title)`,
`delete_todo(title)`, `update_todo(old_title, new_title)`, with `title`
required for add/toggle/delete and both titles required for update. -/
theorem c7_catalog_shape :
    tools.length = 5
    ∧ tools.map (fun d => d.name)
        = ["add_todo", "list_todos", "toggle_todo", "delete_todo", "update_todo"]
    ∧ tools.map (fun d => (d.name, d.params.map (fun p => (p.pname, p.ptype)), d.required))
        = [("add_todo", [("title", "string"), ("due_at", "string")], ["title"]),
           ("list_todos", [("completed", "boolean")], []),
           ("toggle_todo", [("title", "string")], ["title"]),
           ("delete_todo", [("title", "string")], ["title"]),
           ("update_todo", [("old_title", "string"), ("new_title", "string")],
             ["old_title", "new_title"])] := by
  refine ⟨rfl, rfl, rfl⟩

/-- C9: a request body without a truthy `userId` is answered with HTTP 400
and the exact body rendering of a single `error` field, before any model
call, tool execution, or store access: the result holds for every model and
error script, and the store is returned unchanged. -/
theorem c9_userId_guard (model : List CMsg → CallResult) (now : String) (body : ReqBody)
    (dbo : Nat → List (Option String)) (store : Store)
    (h : truthyS body.userId = false) :
    handle model now body dbo store = (HttpOut.jsonErr 400 "userId is required", store)
    ∧ responseBody (handle model now body dbo store).1
        = "\x7b\"error\":\"userId is required\"\x7d".data := by
  constructor
  · simp [handle, h]
  · simp [handle, h]
    decide

/-- C9, witness: a body with no `userId` field. -/
theorem c9_userId_guard_witness :
    handle (fun _ => CallResult.err 500) "2026-02-10T00:00:00Z" ⟨[("user", "hi")], none⟩
        (fun _ => []) ⟨[], 0⟩
      = (HttpOut.jsonErr 400 "userId is required", ⟨[], 0⟩)
    ∧ responseBody (handle (fun _ => CallResult.err 500) "2026-02-10T00:00:00Z"
        ⟨[("user", "hi")], none⟩ (fun _ => []) ⟨[], 0⟩).1
      = "\x7b\"error\":\"userId is required\"\x7d".data :=
  c9_userId_guard (fun _ => CallResult.err 500) "2026-02-10T00:00:00Z"
    ⟨[("user", "hi")], none⟩ (fun _ => []) ⟨[], 0⟩ (by decide)

/-- A store with one task of user `u1` matching the pattern `Pay`. -/
def s5 : Store := ⟨[⟨0, "u1", "Pay bills", false, none, 0⟩], 1⟩

/-- The task stored in `s5`. -/
def pay0 : Task := ⟨0, "u1", "Pay bills", false, none, 0⟩

/-- C5, counterexample: when the store reports a failure on the resolving
select of `toggle_todo` (error script `[some msg]`), the executor discards
the error object and answers with the no-match text — not with an
`Error: <detail>` string — even though a matching task exists. -/
theorem c5_counterexample :
    executeTool "toggle_todo" { title := some "Pay" } "u1" [some "connection reset"] s5
      = ("No task found matching \"Pay\"", s5)
    ∧ ("Error: ".data.isPrefixOf ("No task found matching \"Pay\"" : String).data) = false
    ∧ (candidates s5.rows "u1" "Pay").length = 1 := by
  decide

/-- C5, amended: `execute` is total and never escalates a store failure;
failures reported on the insert, the list select, the bulk delete, and the
toggle/delete/update mutations come back as `Error: <detail>`, while a
failure on the match-resolution select is swallowed by the code and
reported as `No task found ...` no-match text instead. -/
theorem c5_soft_failure (args : Args) (userId msg : String) (s : Store) (t0 : Task) :
    executeTool "add_todo" args userId [some msg] s = ("Error: " ++ msg, s)
    ∧ executeTool "list_todos" args userId [some msg] s = ("Error: " ++ msg, s)
    ∧ (args.title = some "__completed__" →
        executeTool "delete_todo" args userId [some msg] s = ("Error: " ++ msg, s))
    ∧ executeTool "toggle_todo" args userId [some msg] s
        = ("No task found matching \"" ++ argStr args.title ++ "\"", s)
    ∧ ((candidates s.rows userId (argStr args.title)).head? = some t0 →
        executeTool "toggle_todo" args userId [none, some msg] s = ("Error: " ++ msg, s))
    ∧ (args.title ≠ some "__completed__" →
        (candidates s.rows userId (argStr args.title)).head? = some t0 →
        executeTool "delete_todo" args userId [none, some msg] s = ("Error: " ++ msg, s))
    ∧ ((candidates s.rows userId (argStr args.old_title)).head? = some t0 →
        executeTool "update_todo" args userId [none, some msg] s = ("Error: " ++ msg, s)) := by
  refine ⟨?_, ?_, ?_, ?_, ?_, ?_, ?_⟩
  · simp [executeTool, errAt]
  · simp [executeTool, errAt]
  · intro h; simp [executeTool, errAt, h]
  · simp [executeTool, errAt]
  · intro h; simp only [candidates] at h; simp [executeTool, errAt, h]
  · intro hne h; simp only [candidates] at h; simp [executeTool, errAt, hne, h]
  · intro h; simp only [candidates] at h; simp [executeTool, errAt, h]

/-- C5, witness for the amended theorem at concrete inputs. -/
theorem c5_soft_failure_witness :
    executeTool "add_todo" { title := some "Pay" } "u1" [some "boom"] s5
      = ("Error: " ++ "boom", s5)
    ∧ executeTool "toggle_todo" { title := some "Pay" } "u1" [some "boom"] s5
      = ("No task found matching \"" ++ argStr (some "Pay") ++ "\"", s5)
    ∧ executeTool "toggle_todo" { title := some "Pay" } "u1" [none, some "boom"] s5
      = ("Error: " ++ "boom", s5)
    ∧ executeTool "delete_todo" { title := some "__completed__" } "u1" [some "boom"] s5
      = ("Error: " ++ "boom", s5) :=
  ⟨(c5_soft_failure { title := some "Pay" } "u1" "boom" s5 pay0).1,
   (c5_soft_failure { title := some "Pay" } "u1" "boom" s5 pay0).2.2.2.1,
   (c5_soft_failure { title := some "Pay" } "u1" "boom" s5 pay0).2.2.2.2.1 (by decide),
   (c5_soft_failure { title := some "__completed__" } "u1" "boom" s5 pay0).2.2.1 rfl⟩

/-- C8, amended: on the FIRST completion request, upstream 429 and 402 are
surfaced as HTTP 429/402 with an `error` body and any other non-success
status as a generic 500 `error` body; a failed FOLLOW-UP request is never
surfaced as an HTTP error — once the first call succeeds the handler always
answers with a 200 event stream. -/
theorem c8_first_call_failures (model : List CMsg → CallResult) (now : String)
    (body : ReqBody) (dbo : Nat → List (Option String)) (store : Store)
    (h : truthyS body.userId = true) :
    (model (initMsgs now body) = CallResult.err 429 →
      handle model now body dbo store = (HttpOut.jsonErr 429 "Rate limited", store))
    ∧ (model (initMsgs now body) = CallResult.err 402 →
      handle model now body dbo store = (HttpOut.jsonErr 402 "Payment required", store))
    ∧ (∀ st, model (initMsgs now body) = CallResult.err st → st ≠ 429 → st ≠ 402 →
      handle model now body dbo store = (HttpOut.jsonErr 500 "AI gateway error", store))
    ∧ (∀ am0, model (initMsgs now body) = CallResult.ok am0 →
      ∃ c st2, handle model now body dbo store = (HttpOut.stream c, st2)) := by
  refine ⟨?_, ?_, ?_, ?_⟩
  · intro h0; simp [handle, h, h0]
  · intro h0; simp [handle, h, h0]
  · intro st h0 h1 h2; simp [handle, h, h0, h1, h2]
  · intro am0 h0; simp [handle, h, h0]

/-- C8, witness for the amended theorem: a first call failing with 429. -/
theorem c8_first_call_failures_witness :
    handle (fun _ => CallResult.err 429) "now" ⟨[("user", "hi")], some "u1"⟩
        (fun _ => []) ⟨[], 0⟩
      = (HttpOut.jsonErr 429 "Rate limited", ⟨[], 0⟩) :=
  (c8_first_call_failures (fun _ => CallResult.err 429) "now" ⟨[("user", "hi")], some "u1"⟩
    (fun _ => []) ⟨[], 0⟩ (by decide)).1 rfl

/-- The request body used by the concrete scenarios below. -/
def cBody : ReqBody := ⟨[("user", "hi")], some "u1"⟩

/-- An assistant message requesting one `add_todo` tool call. -/
def amTools : AMsg := ⟨none, some [⟨"call_1", "add_todo", { title := some "Buy milk" }⟩]⟩

/-- A model that answers the first call (transcript of two messages) with a
tool request and every follow-up with upstream status 429. -/
def cModel8 : List CMsg → CallResult := fun conv =>
  if conv.length ≤ 2 then CallResult.ok amTools else CallResult.err 429

/-- C8, counterexample: a follow-up completion request failing with 429 does
NOT yield an HTTP 429 error response — the handler breaks out of the loop
and still answers with a 200 event stream (here with the fallback text),
keeping the executed mutation. -/
theorem c8_counterexample :
    handle cModel8 "now" cBody (fun _ => []) ⟨[], 0⟩
      = (HttpOut.stream "Done!", ⟨[⟨0, "u1", "Buy milk", false, none, 0⟩], 1⟩)
    ∧ (handle cModel8 "now" cBody (fun _ => []) ⟨[], 0⟩).1
        ≠ HttpOut.jsonErr 429 "Rate limited" := by
  decide

/-- The settled answer text is never the empty string. -/
theorem orFallback_ne_empty (c : Option String) : orFallback c ≠ "" := by
  cases c with
  | none => simp [orFallback]
  | some s =>
    cases h : (s == "") with
    | true => simp [orFallback, h]
    | false => simp only [orFallback, h, Bool.false_eq_true, if_false]
               exact (beq_eq_false_iff_ne (a := s) (b := "")).mp h

/-- Against a model that always requests tools, the loop counter always
settles at the cap. -/
theorem toolLoopGo_cap (model : List CMsg → CallResult) (userId : String)
    (dbo : Nat → List (Option String))
    (hm : ∀ c, ∃ m, model c = CallResult.ok m ∧ m.tool_calls.isSome = true) :
    ∀ fuel iterations execCount conv am store,
      fuel = MAX_ITERATIONS + 1 - iterations → iterations ≤ MAX_ITERATIONS →
      am.tool_calls.isSome = true →
      (toolLoopGo model userId dbo fuel iterations execCount conv am store).iterations
        = MAX_ITERATIONS := by
  intro fuel
  induction fuel with
  | zero =>
    intro it ec conv am st hf hit _
    exfalso
    simp only [MAX_ITERATIONS] at hf hit
    omega
  | succ f ih =>
    intro it ec conv am st hf hit htc
    by_cases hlt : it < MAX_ITERATIONS
    · simp only [toolLoopGo]
      rw [if_pos ⟨htc, hlt⟩]
      obtain ⟨m2, hm2, htc2⟩ :=
        hm (execCalls userId dbo (am.tool_calls.getD []) ec st (conv ++ [CMsg.fromModel am])).2.1
      rw [hm2]
      exact ih (it + 1) _ _ m2 _ (by simp only [MAX_ITERATIONS] at hf ⊢; omega)
        (by omega) htc2
    · have hit5 : it = MAX_ITERATIONS := by omega
      simp only [toolLoopGo]
      rw [if_neg (fun hcon => hlt hcon.2)]
      exact hit5

/-- C3: for a model that answers every request with at least one tool call,
the orchestration performs exactly `MAX_ITERATIONS` (= 5) tool-execution
rounds, then settles: the handler answers with a 200 event stream carrying
the last assistant message's text (the fixed fallback when none), which is
never empty — reaching the cap is not surfaced as an error. -/
theorem c3_bounded_loop (model : List CMsg → CallResult) (now : String) (body : ReqBody)
    (dbo : Nat → List (Option String)) (store : Store)
    (hu : truthyS body.userId = true)
    (hm : ∀ c, ∃ m, model c = CallResult.ok m ∧ m.tool_calls.isSome = true) :
    ∃ am0, model (initMsgs now body) = CallResult.ok am0
      ∧ (toolLoop model (body.userId.getD "") dbo 0 0 (initMsgs now body) am0 store).iterations
          = MAX_ITERATIONS
      ∧ handle model now body dbo store
          = (HttpOut.stream (orFallback
               (toolLoop model (body.userId.getD "") dbo 0 0 (initMsgs now body) am0 store).am.content),
             (toolLoop model (body.userId.getD "") dbo 0 0 (initMsgs now body) am0 store).store)
      ∧ orFallback
          (toolLoop model (body.userId.getD "") dbo 0 0 (initMsgs now body) am0 store).am.content
          ≠ "" := by
  obtain ⟨am0, h0, htc0⟩ := hm (initMsgs now body)
  refine ⟨am0, h0, ?_, ?_, orFallback_ne_empty _⟩
  · exact toolLoopGo_cap model _ dbo hm _ 0 0 _ am0 store rfl (by simp [MAX_ITERATIONS]) htc0
  · simp [handle, hu, h0, toolLoop]

/-- A model that always answers with content and an (empty, still truthy)
tool-call array. -/
def cModel3 : List CMsg → CallResult := fun _ => CallResult.ok ⟨some "ok", some []⟩

/-- C3, witness: the always-tool-calling constant model drives the loop to
exactly the cap and the handler still streams. -/
theorem c3_bounded_loop_witness :
    (toolLoop cModel3 "u1" (fun _ => []) 0 0 (initMsgs "now" cBody)
        ⟨some "ok", some []⟩ ⟨[], 0⟩).iterations = MAX_ITERATIONS
    ∧ handle cModel3 "now" cBody (fun _ => []) ⟨[], 0⟩
        = (HttpOut.stream (orFallback
             (toolLoop cModel3 "u1" (fun _ => []) 0 0 (initMsgs "now" cBody)
               ⟨some "ok", some []⟩ ⟨[], 0⟩).am.content),
           (toolLoop cModel3 "u1" (fun _ => []) 0 0 (initMsgs "now" cBody)
             ⟨some "ok", some []⟩ ⟨[], 0⟩).store) := by
  obtain ⟨am0, h0, hiter, hhandle, _⟩ :=
    c3_bounded_loop cModel3 "now" cBody (fun _ => []) ⟨[], 0⟩ (by decide)
      (fun _ => ⟨⟨some "ok", some []⟩, rfl, rfl⟩)
  have ham : am0 = ⟨some "ok", some []⟩ := by
    have := h0
    simp only [cModel3, CallResult.ok.injEq] at this
    exact this.symm
  subst ham
  exact ⟨hiter, hhandle⟩

/-- C10: if a follow-up model call fails (any status) after a round of tool
executions, nothing is rolled back — the handler still answers with a 200
event stream of the last available content (or the fallback), and the final
store is exactly the store produced by those tool executions. -/
theorem c10_no_atomicity (model : List CMsg → CallResult) (now : String) (body : ReqBody)
    (dbo : Nat → List (Option String)) (store : Store) (am0 : AMsg)
    (calls : List ToolCall) (status : Nat)
    (hu : truthyS body.userId = true)
    (h0 : model (initMsgs now body) = CallResult.ok am0)
    (htc : am0.tool_calls = some calls)
    (hf : model (execCalls (body.userId.getD "") dbo calls 0 store
            (initMsgs now body ++ [CMsg.fromModel am0])).2.1 = CallResult.err status) :
    handle model now body dbo store
      = (HttpOut.stream (orFallback am0.content),
         (execCalls (body.userId.getD "") dbo calls 0 store
            (initMsgs now body ++ [CMsg.fromModel am0])).1) := by
  simp [handle, hu, h0, toolLoop, toolLoopGo, MAX_ITERATIONS, htc, hf]

/-- A model answering the first call with one `add_todo` tool request and
every follow-up with upstream status 503. -/
def cModel10 : List CMsg → CallResult := fun conv =>
  if conv.length ≤ 2 then CallResult.ok amTools else CallResult.err 503

/-- C10, witness: the executed insert persists in the returned store while
the handler streams the fallback text. -/
theorem c10_no_atomicity_witness :
    handle cModel10 "now" cBody (fun _ => []) ⟨[], 0⟩
      = (HttpOut.stream (orFallback amTools.content),
         (execCalls "u1" (fun _ => []) [⟨"call_1", "add_todo", { title := some "Buy milk" }⟩]
            0 ⟨[], 0⟩ (initMsgs "now" cBody ++ [CMsg.fromModel amTools])).1) :=
  c10_no_atomicity cModel10 "now" cBody (fun _ => []) ⟨[], 0⟩ amTools
    [⟨"call_1", "add_todo", { title := some "Buy milk" }⟩] 503
    (by decide) (by decide) rfl (by decide)

/-- Unfolding of the executor at `add_todo`. -/
theorem executeTool_add_eq (args : Args) (userId : String) (errs : List (Option String))
    (s : Store) :
    executeTool "add_todo" args userId errs s =
      match errAt errs 0 with
      | some msg => ("Error: " ++ msg, s)
      | none =>
        ("Added task: \"" ++ argStr args.title ++ "\""
           ++ match (if truthyS args.due_at then args.due_at else none) with
              | some d => " (due: " ++ d ++ ")"
              | none => "",
         ⟨s.rows ++ [⟨s.tick, userId, argStr args.title, false,
            (if truthyS args.due_at then args.due_at else none), s.tick⟩], s.tick + 1⟩) := rfl

/-- Unfolding of the executor at `list_todos`. -/
theorem executeTool_list_eq (args : Args) (userId : String) (errs : List (Option String))
    (s : Store) :
    executeTool "list_todos" args userId errs s =
      match errAt errs 0 with
      | some msg => ("Error: " ++ msg, s)
      | none =>
        if (sortByCreatedDesc (s.rows.filter (fun t => t.user_id == userId &&
            (match args.completed with
             | some b => t.completed == b
             | none => true)))).isEmpty
        then ("No tasks found.", s)
        else (String.intercalate "\n"
          ((sortByCreatedDesc (s.rows.filter (fun t => t.user_id == userId &&
            (match args.completed with
             | some b => t.completed == b
             | none => true)))).enum.map listLine), s) := rfl

/-- Unfolding of the executor at `toggle_todo`. -/
theorem executeTool_toggle_eq (args : Args) (userId : String) (errs : List (Option String))
    (s : Store) :
    executeTool "toggle_todo" args userId errs s =
      match errAt errs 0 with
      | some _ => ("No task found matching \"" ++ argStr args.title ++ "\"", s)
      | none =>
        match (s.rows.filter (fun t =>
            t.user_id == userId && ilikeMatch (argStr args.title) t.title)).head? with
        | none => ("No task found matching \"" ++ argStr args.title ++ "\"", s)
        | some todo =>
          match errAt errs 1 with
          | some msg => ("Error: " ++ msg, s)
          | none =>
            ((if todo.completed then "Uncompleted" else "Completed")
               ++ ": \"" ++ todo.title ++ "\"",
             ⟨s.rows.map (fun r =>
                if r.id == todo.id then { r with completed := !todo.completed } else r),
              s.tick⟩) := rfl

/-- Unfolding of the executor at `delete_todo`. -/
theorem executeTool_delete_eq (args : Args) (userId : String) (errs : List (Option String))
    (s : Store) :
    executeTool "delete_todo" args userId errs s =
      if args.title == some "__completed__" then
        match errAt errs 0 with
        | some msg => ("Error: " ++ msg, s)
        | none =>
          ("Deleted all completed tasks.",
           ⟨s.rows.filter (fun r => !(r.user_id == userId && r.completed)), s.tick⟩)
      else
        match errAt errs 0 with
        | some _ => ("No task found matching \"" ++ argStr args.title ++ "\"", s)
        | none =>
          match (s.rows.filter (fun t =>
              t.user_id == userId && ilikeMatch (argStr args.title) t.title)).head? with
          | none => ("No task found matching \"" ++ argStr args.title ++ "\"", s)
          | some todo =>
            match errAt errs 1 with
            | some msg => ("Error: " ++ msg, s)
            | none =>
              ("Deleted: \"" ++ todo.title ++ "\"",
               ⟨s.rows.filter (fun r => !(r.id == todo.id)), s.tick⟩) := rfl

/-- Unfolding of the executor at `update_todo`. -/
theorem executeTool_update_eq (args : Args) (userId : String) (errs : List (Option String))
    (s : Store) :
    executeTool "update_todo" args userId errs s =
      match errAt errs 0 with
      | some _ => ("No task found matching \"" ++ argStr args.old_title ++ "\"", s)
      | none =>
        match (s.rows.filter (fun t =>
            t.user_id == userId && ilikeMatch (argStr args.old_title) t.title)).head? with
        | none => ("No task found matching \"" ++ argStr args.old_title ++ "\"", s)
        | some todo =>
          match errAt errs 1 with
          | some msg => ("Error: " ++ msg, s)
          | none =>
            ("Updated \"" ++ todo.title ++ "\" → \"" ++ argStr args.new_title ++ "\"",
             ⟨s.rows.map (fun r =>
                if r.id == todo.id then { r with title := argStr args.new_title } else r),
              s.tick⟩) := rfl

/-- Mapping a row-updating function that fixes every row satisfying `p` and
preserves `p` does not change the `p`-filtered rows. -/
theorem filter_map_eq_of {g : Task → Task} {p : Task → Bool} :
    ∀ l : List Task, (∀ r, p (g r) = p r) → (∀ r ∈ l, p r = true → g r = r) →
      (l.map g).filter p = l.filter p := by
  intro l hpg hg
  induction l with
  | nil => rfl
  | cons a t ih =>
    have iht := ih (fun r hr hpr => hg r (List.mem_cons_of_mem a hr) hpr)
    have ha := hpg a
    cases hpa : p a with
    | true =>
      have hga : g a = a := hg a (List.mem_cons_self a t) hpa
      simp [List.filter_cons, hga, hpa, iht]
    | false =>
      have hga : p (g a) = false := by rw [ha, hpa]
      simp [List.filter_cons, hga, hpa, iht]

/-- Removing rows that all fail `p` does not change the `p`-filtered rows. -/
theorem filter_filter_eq_of {keep p : Task → Bool} :
    ∀ l : List Task, (∀ r ∈ l, p r = true → keep r = true) →
      (l.filter keep).filter p = l.filter p := by
  intro l hk
  induction l with
  | nil => rfl
  | cons a t ih =>
    have iht := ih (fun r hr hpr => hk r (List.mem_cons_of_mem a hr) hpr)
    cases hpa : p a with
    | true =>
      have hka : keep a = true := hk a (List.mem_cons_self a t) hpa
      simp [List.filter_cons, hka, hpa, iht]
    | false =>
      cases hka : keep a with
      | true => simp [List.filter_cons, hka, hpa, iht]
      | false => simp [List.filter_cons, hka, hpa, iht]

/-- A conjunction with the ownership test factors through `tasksOf`. -/
theorem filter_user_and (uid : String) (p : Task → Bool) (rows : List Task) :
    rows.filter (fun t => t.user_id == uid && p t) = (tasksOf uid rows).filter p := by
  rw [tasksOf, List.filter_filter]
  exact List.filter_congr (fun a _ => Bool.and_comm _ _)

/-- Distinct ids identify rows. -/
theorem row_eq_of_id_eq {rows : List Task} (hnd : (rows.map (fun t => t.id)).Nodup)
    {a b : Task} (ha : a ∈ rows) (hb : b ∈ rows) (hid : a.id = b.id) : a = b :=
  List.inj_on_of_nodup_map hnd ha hb hid

/-- The head of a substring resolution is a task of the executing user. -/
theorem head_candidate_mem {rows : List Task} {uid pat : String} {t0 : Task}
    (hh : (rows.filter (fun t => t.user_id == uid && ilikeMatch pat t.title)).head? = some t0) :
    t0 ∈ rows ∧ t0.user_id = uid := by
  have hmem : t0 ∈ rows.filter (fun t => t.user_id == uid && ilikeMatch pat t.title) :=
    List.mem_of_mem_head? (Option.mem_def.2 hh)
  rw [List.mem_filter] at hmem
  refine ⟨hmem.1, ?_⟩
  have hcond := hmem.2
  simp only [Bool.and_eq_true, beq_iff_eq] at hcond
  exact hcond.1

/-- For a selected row of the executing user, every row of another user is
fixed by an id-guarded update. -/
theorem other_user_fixed {rows : List Task} {uid u : String} (hu : u ≠ uid)
    (hnd : (rows.map (fun t => t.id)).Nodup) {t0 : Task} (h0 : t0 ∈ rows)
    (h0u : t0.user_id = uid) (upd : Task → Task) :
    ∀ r ∈ rows, (r.user_id == u) = true →
      (if r.id == t0.id then upd r else r) = r := by
  intro r hr hru
  cases hid : (r.id == t0.id) with
  | false => simp [hid]
  | true =>
    exfalso
    have hrt : r = t0 := row_eq_of_id_eq hnd hr h0 (beq_iff_eq.mp hid)
    rw [beq_iff_eq] at hru
    exact hu (by rw [← hru, hrt, h0u])

/-- For a selected row of the executing user, every row of another user
survives an id-guarded delete. -/
theorem other_user_kept {rows : List Task} {uid u : String} (hu : u ≠ uid)
    (hnd : (rows.map (fun t => t.id)).Nodup) {t0 : Task} (h0 : t0 ∈ rows)
    (h0u : t0.user_id = uid) :
    ∀ r ∈ rows, (r.user_id == u) = true → (!(r.id == t0.id)) = true := by
  intro r hr hru
  cases hid : (r.id == t0.id) with
  | false => rfl
  | true =>
    exfalso
    have hrt : r = t0 := row_eq_of_id_eq hnd hr h0 (beq_iff_eq.mp hid)
    rw [beq_iff_eq] at hru
    exact hu (by rw [← hru, hrt, h0u])

/-- C4 auxiliary, mutation part: no tool invocation changes another user's
tasks. -/
theorem c4aux_other_users (name : String) (args : Args) (userId : String)
    (errs : List (Option String)) (s : Store) (u : String) (hu : u ≠ userId)
    (hnd : (s.rows.map (fun t => t.id)).Nodup) :
    tasksOf u (executeTool name args userId errs s).2.rows = tasksOf u s.rows := by
  have huid : (userId == u) = false := beq_eq_false_iff_ne.mpr (fun h => hu h.symm)
  by_cases h1 : name = "add_todo"
  · subst h1
    rw [executeTool_add_eq]
    cases e : errAt errs 0 with
    | some msg => rfl
    | none => simp [tasksOf, List.filter_append, huid]
  · by_cases h2 : name = "list_todos"
    · subst h2
      rw [executeTool_list_eq]
      cases e : errAt errs 0 with
      | some msg => rfl
      | none =>
        simp only []
        split <;> rfl
    · by_cases h3 : name = "toggle_todo"
      · subst h3
        rw [executeTool_toggle_eq]
        cases e : errAt errs 0 with
        | some msg => rfl
        | none =>
          cases hh : (s.rows.filter (fun t =>
              t.user_id == userId && ilikeMatch (argStr args.title) t.title)).head? with
          | none => rfl
          | some todo =>
            obtain ⟨hmem, hupr⟩ := head_candidate_mem hh
            cases e2 : errAt errs 1 with
            | some msg => rfl
            | none =>
              exact filter_map_eq_of s.rows
                (fun r => by by_cases h : (r.id == todo.id) = true <;> simp [h])
                (other_user_fixed hu hnd hmem hupr _)
      · by_cases h4 : name = "delete_todo"
        · subst h4
          rw [executeTool_delete_eq]
          by_cases ht : args.title = some "__completed__"
          · rw [if_pos (by simp [ht])]
            cases e : errAt errs 0 with
            | some msg => rfl
            | none =>
              refine filter_filter_eq_of s.rows ?_
              intro r _ hru
              have : (r.user_id == userId) = false := by
                rw [beq_iff_eq] at hru
                exact beq_eq_false_iff_ne.mpr (by rw [hru]; exact hu)
              simp [this]
          · rw [if_neg (by simp [ht])]
            cases e : errAt errs 0 with
            | some msg => rfl
            | none =>
              cases hh : (s.rows.filter (fun t =>
                  t.user_id == userId && ilikeMatch (argStr args.title) t.title)).head? with
              | none => rfl
              | some todo =>
                obtain ⟨hmem, hupr⟩ := head_candidate_mem hh
                cases e2 : errAt errs 1 with
                | some msg => rfl
                | none => exact filter_filter_eq_of s.rows (other_user_kept hu hnd hmem hupr)
        · by_cases h5 : name = "update_todo"
          · subst h5
            rw [executeTool_update_eq]
            cases e : errAt errs 0 with
            | some msg => rfl
            | none =>
              cases hh : (s.rows.filter (fun t =>
                  t.user_id == userId && ilikeMatch (argStr args.old_title) t.title)).head? with
              | none => rfl
              | some todo =>
                obtain ⟨hmem, hupr⟩ := head_candidate_mem hh
                cases e2 : errAt errs 1 with
                | some msg => rfl
                | none =>
                  exact filter_map_eq_of s.rows
                    (fun r => by by_cases h : (r.id == todo.id) = true <;> simp [h])
                    (other_user_fixed hu hnd hmem hupr _)
          · simp [executeTool, h1, h2, h3, h4, h5]

/-- C4 auxiliary, read part: the executor's answer depends only on the
executing user's rows — stores agreeing on those rows are
indistinguishable. -/
theorem c4aux_read_scope (name : String) (args : Args) (userId : String)
    (errs : List (Option String)) (s s' : Store)
    (h : tasksOf userId s.rows = tasksOf userId s'.rows) :
    (executeTool name args userId errs s).1 = (executeTool name args userId errs s').1 := by
  by_cases h1 : name = "add_todo"
  · subst h1
    rw [executeTool_add_eq, executeTool_add_eq]
    cases e : errAt errs 0 <;> simp only [e]
  · by_cases h2 : name = "list_todos"
    · subst h2
      rw [executeTool_list_eq, executeTool_list_eq]
      have hfil : s.rows.filter (fun t => t.user_id == userId &&
            (match args.completed with
             | some b => t.completed == b
             | none => true))
          = s'.rows.filter (fun t => t.user_id == userId &&
            (match args.completed with
             | some b => t.completed == b
             | none => true)) := by
        rw [filter_user_and, filter_user_and, h]
      rw [hfil]
      cases e : errAt errs 0 with
      | some msg => simp only [e]
      | none =>
        simp only [e]
        split <;> rfl
    · by_cases h3 : name = "toggle_todo"
      · subst h3
        rw [executeTool_toggle_eq, executeTool_toggle_eq]
        have hfil : s.rows.filter (fun t =>
              t.user_id == userId && ilikeMatch (argStr args.title) t.title)
            = s'.rows.filter (fun t =>
              t.user_id == userId && ilikeMatch (argStr args.title) t.title) := by
          rw [filter_user_and, filter_user_and, h]
        rw [hfil]
        cases e : errAt errs 0 with
        | some msg => simp only [e]
        | none =>
          simp only [e]
          cases hh : (s'.rows.filter (fun t =>
              t.user_id == userId && ilikeMatch (argStr args.title) t.title)).head? with
          | none => simp only [hh]
          | some todo =>
            simp only [hh]
            cases e2 : errAt errs 1 <;> simp only [e2]
      · by_cases h4 : name = "delete_todo"
        · subst h4
          rw [executeTool_delete_eq, executeTool_delete_eq]
          cases ht : (args.title == some "__completed__") with
          | true =>
            simp only [ht, if_true]
            cases e : errAt errs 0 <;> simp only [e]
          | false =>
            simp only [ht, Bool.false_eq_true, if_false]
            have hfil : s.rows.filter (fun t =>
                  t.user_id == userId && ilikeMatch (argStr args.title) t.title)
                = s'.rows.filter (fun t =>
                  t.user_id == userId && ilikeMatch (argStr args.title) t.title) := by
              rw [filter_user_and, filter_user_and, h]
            rw [hfil]
            cases e : errAt errs 0 with
            | some msg => simp only [e]
            | none =>
              simp only [e]
              cases hh : (s'.rows.filter (fun t =>
                  t.user_id == userId && ilikeMatch (argStr args.title) t.title)).head? with
              | none => simp only [hh]
              | some todo =>
                simp only [hh]
                cases e2 : errAt errs 1 <;> simp only [e2]
        · by_cases h5 : name = "update_todo"
          · subst h5
            rw [executeTool_update_eq, executeTool_update_eq]
            have hfil : s.rows.filter (fun t =>
                  t.user_id == userId && ilikeMatch (argStr args.old_title) t.title)
                = s'.rows.filter (fun t =>
                  t.user_id == userId && ilikeMatch (argStr args.old_title) t.title) := by
              rw [filter_user_and, filter_user_and, h]
            rw [hfil]
            cases e : errAt errs 0 with
            | some msg => simp only [e]
            | none =>
              simp only [e]
              cases hh : (s'.rows.filter (fun t =>
                  t.user_id == userId && ilikeMatch (argStr args.old_title) t.title)).head? with
              | none => simp only [hh]
              | some todo =>
                simp only [hh]
                cases e2 : errAt errs 1 <;> simp only [e2]
          · simp [executeTool, h1, h2, h3, h4, h5]

/-- C4 auxiliary: the `__completed__` bulk delete removes all and only the
executing user's completed tasks. -/
theorem c4aux_bulk (userId : String) (s : Store) :
    tasksOf userId
        (executeTool "delete_todo" { title := some "__completed__" } userId [] s).2.rows
      = (tasksOf userId s.rows).filter (fun t => !t.completed) := by
  rw [executeTool_delete_eq]
  rw [if_pos (by simp)]
  simp only [show errAt ([] : List (Option String)) 0 = none from rfl]
  rw [tasksOf, tasksOf, List.filter_filter, List.filter_filter]
  apply List.filter_congr
  intro a _
  cases hu : (a.user_id == userId) <;> simp [hu]

/-- C4: cross-user isolation of the Tool Executor.  First conjunct: for any
tool invocation on behalf of `userId` (with primary-key-unique row ids),
every other user's task set is unchanged.  Second conjunct: the answer is
computed only from the executing user's rows (so other users' tasks are
never read).  Third conjunct: the `__completed__` bulk delete removes all
and only the executing user's completed tasks. -/
theorem c4_isolation (name : String) (args : Args) (userId : String)
    (errs : List (Option String)) :
    (∀ s : Store, ∀ u : String, u ≠ userId → (s.rows.map (fun t => t.id)).Nodup →
      tasksOf u (executeTool name args userId errs s).2.rows = tasksOf u s.rows)
    ∧ (∀ s s' : Store, tasksOf userId s.rows = tasksOf userId s'.rows →
      (executeTool name args userId errs s).1 = (executeTool name args userId errs s').1)
    ∧ (∀ s : Store,
      tasksOf userId
          (executeTool "delete_todo" { title := some "__completed__" } userId [] s).2.rows
        = (tasksOf userId s.rows).filter (fun t => !t.completed)) :=
  ⟨fun s u hu hnd => c4aux_other_users name args userId errs s u hu hnd,
   fun s s' h => c4aux_read_scope name args userId errs s s' h,
   fun s => c4aux_bulk userId s⟩

/-- A mixed store: one task of user `u2` matching `milk`, two tasks of
`u1`. -/
def s4w : Store :=
  ⟨[⟨0, "u2", "milk truck", false, none, 0⟩, ⟨1, "u1", "Buy milk", false, none, 1⟩,
    ⟨2, "u1", "Done item", true, none, 2⟩], 3⟩

/-- A second store agreeing with `s4w` on the tasks of `u1` only. -/
def s4w' : Store :=
  ⟨[⟨1, "u1", "Buy milk", false, none, 1⟩, ⟨2, "u1", "Done item", true, none, 2⟩,
    ⟨7, "u3", "other things", false, none, 0⟩], 9⟩

/-- C4, witness at concrete stores: `u2`'s matching task is untouched by a
`u1` toggle, the answer ignores rows of other users, and the bulk delete
keeps exactly `u1`'s unfinished tasks. -/
theorem c4_isolation_witness :
    tasksOf "u2" (executeTool "toggle_todo" { title := some "milk" } "u1" [] s4w).2.rows
      = tasksOf "u2" s4w.rows
    ∧ (executeTool "toggle_todo" { title := some "milk" } "u1" [] s4w).1
      = (executeTool "toggle_todo" { title := some "milk" } "u1" [] s4w').1
    ∧ tasksOf "u1"
        (executeTool "delete_todo" { title := some "__completed__" } "u1" [] s4w).2.rows
      = (tasksOf "u1" s4w.rows).filter (fun t => !t.completed) :=
  ⟨(c4_isolation "toggle_todo" { title := some "milk" } "u1" []).1 s4w "u2"
     (by decide) (by decide),
   (c4_isolation "toggle_todo" { title := some "milk" } "u1" []).2.1 s4w s4w' (by decide),
   (c4_isolation "toggle_todo" { title := some "milk" } "u1" []).2.2 s4w⟩

/-- Hex digits below 16 never render as a newline. -/
theorem hexDigit_ne_nl : ∀ n, n < 16 → hexDigit n ≠ '\n' := by decide

/-- Hex digit rendering round-trips through `hexVal`. -/
theorem hexVal_hexDigit : ∀ n, n < 16 → hexVal (hexDigit n) = some n := by decide

/-- JSON escaping never emits a raw newline. -/
theorem escChar_no_nl (c : Char) : '\n' ∉ escChar c := by
  rw [escChar]
  by_cases h1 : c = '"'
  · rw [if_pos h1]; decide
  rw [if_neg h1]
  by_cases h2 : c = '\\'
  · rw [if_pos h2]; decide
  rw [if_neg h2]
  by_cases h3 : c = '\n'
  · rw [if_pos h3]; decide
  rw [if_neg h3]
  by_cases h4 : c = '\r'
  · rw [if_pos h4]; decide
  rw [if_neg h4]
  by_cases h5 : c = '\t'
  · rw [if_pos h5]; decide
  rw [if_neg h5]
  by_cases h6 : c = '\x08'
  · rw [if_pos h6]; decide
  rw [if_neg h6]
  by_cases h7 : c = '\x0c'
  · rw [if_pos h7]; decide
  rw [if_neg h7]
  by_cases h8 : c.toNat < 32
  · rw [if_pos h8]
    intro hmem
    simp only [List.mem_cons, List.not_mem_nil, or_false] at hmem
    rcases hmem with h | h | h | h | h | h
    · exact absurd h (by decide)
    · exact absurd h (by decide)
    · exact absurd h (by decide)
    · exact absurd h (by decide)
    · exact hexDigit_ne_nl (c.toNat / 16) (by omega) h.symm
    · exact hexDigit_ne_nl (c.toNat % 16) (by omega) h.symm
  · rw [if_neg h8]
    intro hmem
    rw [List.mem_singleton] at hmem
    exact h8 (by rw [← hmem]; decide)

/-- JSON escaping of a whole string never contains a raw newline. -/
theorem escape_no_nl (l : List Char) : '\n' ∉ escape l := by
  induction l with
  | nil => simp [escape]
  | cons c r ih =>
    intro hmem
    rw [escape] at hmem
    rcases List.mem_append.mp hmem with h | h
    · exact escChar_no_nl c h
    · exact ih h

/-- Unescaping after escaping one character prepends that character. -/
theorem unescape_escChar (c : Char) (r : List Char) :
    unescape (escChar c ++ r) = (unescape r).map (fun l => c :: l) := by
  rw [escChar]
  by_cases h1 : c = '"'
  · rw [if_pos h1]; subst h1; rw [unescape.eq_def]; simp
  rw [if_neg h1]
  by_cases h2 : c = '\\'
  · rw [if_pos h2]; subst h2; rw [unescape.eq_def]; simp
  rw [if_neg h2]
  by_cases h3 : c = '\n'
  · rw [if_pos h3]; subst h3; rw [unescape.eq_def]; simp
  rw [if_neg h3]
  by_cases h4 : c = '\r'
  · rw [if_pos h4]; subst h4; rw [unescape.eq_def]; simp
  rw [if_neg h4]
  by_cases h5 : c = '\t'
  · rw [if_pos h5]; subst h5; rw [unescape.eq_def]; simp
  rw [if_neg h5]
  by_cases h6 : c = '\x08'
  · rw [if_pos h6]; subst h6; rw [unescape.eq_def]; simp
  rw [if_neg h6]
  by_cases h7 : c = '\x0c'
  · rw [if_pos h7]; subst h7; rw [unescape.eq_def]; simp
  rw [if_neg h7]
  by_cases h8 : c.toNat < 32
  · rw [if_pos h8]
    have h1v := hexVal_hexDigit (c.toNat / 16) (by omega)
    have h2v := hexVal_hexDigit (c.toNat % 16) (by omega)
    rw [unescape.eq_def]
    simp [h1v, h2v, show hexVal '0' = some 0 from rfl, Nat.div_add_mod, Char.ofNat_toNat]
  · rw [if_neg h8]
    simp only [List.singleton_append]
    rw [unescape.eq_def]
    simp only []
    rw [if_neg h2, if_neg (not_or.mpr ⟨h1, h8⟩)]

/-- JSON string escaping round-trips through unescaping. -/
theorem unescape_escape (l : List Char) : unescape (escape l) = some l := by
  induction l with
  | nil => rfl
  | cons c r ih =>
    rw [show escape (c :: r) = escChar c ++ escape r from rfl, unescape_escChar, ih]
    rfl

/-- Stripping an expected leading sequence succeeds on an extension. -/
theorem stripPre_append : ∀ p l : List Char, stripPre p (p ++ l) = some l := by
  intro p
  induction p with
  | nil => intro l; rfl
  | cons c p ih => intro l; simp [stripPre, ih]

/-- Stripping an expected trailing sequence succeeds on an extension. -/
theorem stripSuf_append (q l : List Char) : stripSuf q (l ++ q) = some l := by
  rw [stripSuf, List.reverse_append, stripPre_append]
  simp

/-- The modelled parser inverts the modelled serializer. -/
theorem parseDelta_payload (t : String) :
    parseDelta (jsonPayload t) = some (some t.data) := by
  simp [parseDelta, jsonPayload, List.append_assoc, stripPre_append, stripSuf_append,
    unescape_escape]

/-- The first line of the encoded stream (without its newline). -/
def D1 (t : String) : List Char := dataPre ++ jsonPayload t

/-- The sentinel line of the encoded stream (without its newline). -/
def D2 : List Char := dataPre ++ doneLit

/-- The encoded stream, decomposed into its two lines and blank-line
separators. -/
theorem sseEncode_decomp (t : String) :
    sseEncode t = D1 t ++ '\n' :: '\n' :: (D2 ++ ['\n', '\n']) := by
  simp [sseEncode, D1, D2, List.append_assoc]

/-- The payload line contains no raw newline. -/
theorem no_nl_jsonPayload (t : String) : '\n' ∉ jsonPayload t := by
  intro h
  rw [jsonPayload] at h
  rcases List.mem_append.mp h with h1 | h1
  · rcases List.mem_append.mp h1 with h2 | h2
    · exact absurd h2 (by decide)
    · exact escape_no_nl _ h2
  · exact absurd h1 (by decide)

/-- The first encoded line contains no raw newline. -/
theorem no_nl_D1 (t : String) : '\n' ∉ D1 t := by
  intro h
  rcases List.mem_append.mp h with h1 | h1
  · exact absurd h1 (by decide)
  · exact no_nl_jsonPayload t h1

/-- The sentinel line contains no raw newline. -/
theorem no_nl_D2 : '\n' ∉ D2 := by decide

/-- A list is a Boolean prefix of itself extended by anything. -/
theorem isPrefixOf_append_self (p l : List Char) : p.isPrefixOf (p ++ l) = true := by
  induction p with
  | nil => simp [List.isPrefixOf]
  | cons c p ih => simp [List.isPrefixOf, ih]

/-- Dropping leading whitespace does nothing when the head is not
whitespace. -/
theorem dropWhile_eq_self_of_head (p : Char → Bool) (l : List Char)
    (h : ∀ c, l.head? = some c → p c = false) : l.dropWhile p = l := by
  cases l with
  | nil => rfl
  | cons c r => simp [List.dropWhile_cons, h c rfl]

/-- `trim` fixes a list whose first and last characters are not
whitespace. -/
theorem trim_eq_self (l : List Char)
    (h1 : ∀ c, l.head? = some c → isJsSpace c = false)
    (h2 : ∀ c, l.getLast? = some c → isJsSpace c = false) : trim l = l := by
  rw [trim]
  rw [dropWhile_eq_self_of_head _ _ h1]
  rw [dropWhile_eq_self_of_head _ _ (fun c hc => h2 c (by rwa [List.head?_reverse] at hc))]
  exact List.reverse_reverse l

/-- Head of the first encoded line. -/
theorem D1_head (t : String) : (D1 t).head? = some 'd' := by
  rw [D1]
  rw [List.head?_append]
  rfl

/-- Last character of the first encoded line. -/
theorem D1_getLast (t : String) : (D1 t).getLast? = some '}' := by
  rw [D1, jsonPayload, List.getLast?_append, List.getLast?_append]
  rfl

/-- Head of the payload. -/
theorem jsonPayload_head (t : String) : (jsonPayload t).head? = some '\x7b' := by
  rw [jsonPayload, List.head?_append]
  rfl

/-- Last character of the payload. -/
theorem jsonPayload_getLast (t : String) : (jsonPayload t).getLast? = some '}' := by
  rw [jsonPayload, List.getLast?_append, List.getLast?_append]
  rfl

/-- The first encoded line is non-empty. -/
theorem D1_ne_nil (t : String) : D1 t ≠ [] := by
  intro h
  have := congrArg List.head? h
  rw [D1_head] at this
  exact Option.noConfusion this

/-- The payload line never equals the sentinel payload. -/
theorem jsonPayload_ne_done (t : String) : jsonPayload t ≠ doneLit := by
  intro h
  have := congrArg List.head? h
  rw [jsonPayload_head] at this
  have : '\x7b' = '[' := by
    have h2 : doneLit.head? = some '[' := rfl
    rw [h2] at this
    exact Option.some.inj this
  exact absurd this (by decide)

/-- `trim` fixes the first encoded line. -/
theorem trim_D1 (t : String) : trim (D1 t) = D1 t := by
  refine trim_eq_self _ ?_ ?_
  · intro c hc
    rw [D1_head t] at hc
    cases Option.some.inj hc
    rfl
  · intro c hc
    rw [D1_getLast t] at hc
    cases Option.some.inj hc
    rfl

/-- `trim` fixes the payload. -/
theorem trim_jsonPayload (t : String) : trim (jsonPayload t) = jsonPayload t := by
  refine trim_eq_self _ ?_ ?_
  · intro c hc
    rw [jsonPayload_head t] at hc
    cases Option.some.inj hc
    rfl
  · intro c hc
    rw [jsonPayload_getLast t] at hc
    cases Option.some.inj hc
    rfl

/-- Processing the empty line skips it. -/
theorem procLine_nil (st : CState) : procLine [] st = LineOut.next st := rfl

/-- Processing the sentinel line stops the read loop. -/
theorem procLine_D2 (st : CState) : procLine D2 st = LineOut.stop st := rfl

/-- Processing the payload line upserts the settled text. -/
theorem procLine_D1 (t : String) (ht : t.data ≠ []) (st : CState) :
    procLine (D1 t) st = LineOut.next (upsertAssistant t.data st) := by
  have hdrop : (D1 t).drop 6 = jsonPayload t := by
    rw [D1, show (6 : Nat) = dataPre.length from rfl, List.drop_left]
  have hbeqnil : (D1 t == ([] : List Char)) = false :=
    beq_eq_false_iff_ne.mpr (D1_ne_nil t)
  have hbeqdone : (jsonPayload t == doneLit) = false :=
    beq_eq_false_iff_ne.mpr (jsonPayload_ne_done t)
  have hbeqdata : (t.data == ([] : List Char)) = false := beq_eq_false_iff_ne.mpr ht
  rw [procLine]
  simp only [D1_getLast t, D1_head t,
    show ((some '}' : Option Char) == some '\x0d') = false from rfl,
    show ((some 'd' : Option Char) == some ':') = false from rfl,
    Bool.false_eq_true, if_false, trim_D1 t, hbeqnil, Bool.or_self,
    show (D1 t).isPrefixOf? = (D1 t).isPrefixOf? from rfl]
  rw [show dataPre.isPrefixOf (D1 t) = true from by rw [D1]; exact isPrefixOf_append_self _ _]
  simp only [Bool.not_true, Bool.false_eq_true, if_false, hdrop, trim_jsonPayload t,
    hbeqdone, parseDelta_payload t, hbeqdata]

/-- The line taken from a buffer whose pending line has no newline. -/
theorem takeWhile_not_nl (l r : List Char) (hl : '\n' ∉ l) :
    (l ++ '\n' :: r).takeWhile (fun c => !(c == '\n')) = l := by
  induction l with
  | nil => simp [List.takeWhile_cons]
  | cons c l ih =>
    have hc : (c == '\n') = false :=
      beq_eq_false_iff_ne.mpr (fun h => hl (h ▸ List.mem_cons_self c l))
    simp only [List.cons_append, List.takeWhile_cons, hc]
    simp [ih (fun h => hl (List.mem_cons_of_mem c h))]

/-- The remainder after the pending line of a buffer. -/
theorem dropWhile_not_nl (l r : List Char) (hl : '\n' ∉ l) :
    (l ++ '\n' :: r).dropWhile (fun c => !(c == '\n')) = '\n' :: r := by
  induction l with
  | nil => simp [List.dropWhile_cons]
  | cons c l ih =>
    have hc : (c == '\n') = false :=
      beq_eq_false_iff_ne.mpr (fun h => hl (h ▸ List.mem_cons_self c l))
    simp only [List.cons_append, List.dropWhile_cons, hc]
    simp [ih (fun h => hl (List.mem_cons_of_mem c h))]

/-- Draining an empty buffer does nothing, whatever the bound. -/
theorem drain_nil (fuel : Nat) (st : CState) : drain fuel [] st = ([], st) := by
  cases fuel with
  | zero => rfl
  | succ f => simp [drain]

/-- A buffer without a newline is left waiting for more input. -/
theorem drain_no_nl (fuel : Nat) (buf : List Char) (st : CState) (h : '\n' ∉ buf) :
    drain fuel buf st = (buf, st) := by
  cases fuel with
  | zero => rfl
  | succ f =>
    have hdrop : buf.dropWhile (fun c => !(c == '\n')) = [] := by
      rw [List.dropWhile_eq_nil_iff]
      intro a ha
      have hane : a ≠ '\n' := fun he => h (he ▸ ha)
      simp [beq_eq_false_iff_ne.mpr hane]
    simp only [drain, hdrop]

/-- Draining a buffer whose first line is complete processes that line. -/
theorem drain_line (f : Nat) (l r : List Char) (st : CState) (hl : '\n' ∉ l) :
    drain (f + 1) (l ++ '\n' :: r) st
      = match procLine l st with
        | LineOut.next st1 => drain f r st1
        | LineOut.stop st1 => (r, st1)
        | LineOut.pushback st1 => (l ++ '\n' :: r, st1) := by
  simp only [drain, takeWhile_not_nl l r hl, dropWhile_not_nl l r hl]

/-- Every buffer containing a newline splits at the first one. -/
theorem exists_nl_split (buf : List Char) (h : '\n' ∈ buf) :
    ∃ l r, buf = l ++ '\n' :: r ∧ '\n' ∉ l := by
  induction buf with
  | nil => cases h
  | cons c t ih =>
    by_cases hc : c = '\n'
    · exact ⟨[], t, by rw [hc, List.nil_append], by simp⟩
    · have hmem : '\n' ∈ t := by
        rcases List.mem_cons.mp h with h1 | h1
        · exact absurd h1.symm hc
        · exact h1
      obtain ⟨l, r, heq, hl⟩ := ih hmem
      refine ⟨c :: l, r, by rw [List.cons_append, ← heq], ?_⟩
      intro hm
      rcases List.mem_cons.mp hm with h1 | h1
      · exact hc h1.symm
      · exact hl h1

/-- The recursion bound of `drain` is irrelevant once it covers the
buffer. -/
theorem drain_congr : ∀ (fuel fuel' : Nat) (buf : List Char) (st : CState),
    buf.length ≤ fuel → buf.length ≤ fuel' →
    drain fuel buf st = drain fuel' buf st := by
  intro fuel
  induction fuel with
  | zero =>
    intro fuel' buf st h h'
    have hb : buf = [] := List.eq_nil_of_length_eq_zero (Nat.le_zero.mp h)
    subst hb
    rw [drain_nil, drain_nil]
  | succ f ih =>
    intro fuel' buf st h h'
    cases fuel' with
    | zero =>
      have hb : buf = [] := List.eq_nil_of_length_eq_zero (Nat.le_zero.mp h')
      subst hb
      rw [drain_nil, drain_nil]
    | succ f' =>
      by_cases hnl : '\n' ∈ buf
      · obtain ⟨l, r, rfl, hl⟩ := exists_nl_split buf hnl
        have hlen : r.length ≤ f := by
          have := h
          simp only [List.length_append, List.length_cons] at this
          omega
        have hlen' : r.length ≤ f' := by
          have := h'
          simp only [List.length_append, List.length_cons] at this
          omega
        rw [drain_line f l r st hl, drain_line f' l r st hl]
        cases hp : procLine l st with
        | next st1 => exact ih f' r st1 hlen hlen'
        | stop st1 => rfl
        | pushback st1 => rfl
      · rw [drain_no_nl _ _ _ hnl, drain_no_nl _ _ _ hnl]

/-- `drain` with any sufficient bound computes `drainB`. -/
theorem drain_eq_drainB (fuel : Nat) (buf : List Char) (st : CState)
    (h : buf.length ≤ fuel) : drain fuel buf st = drainB buf st := by
  rw [drainB]
  exact drain_congr fuel buf.length buf st h le_rfl

/-- Whether the last visible message is an assistant message. -/
def lastIsAssistant (l : List Msg) : Bool :=
  match l.getLast? with
  | some m => m.role == "assistant"
  | none => false

/-- The consumer state after the settled answer has been upserted. -/
def settledState (ms0 : List Msg) (t : String) : CState :=
  ⟨ms0 ++ [⟨"assistant", t.data⟩], t.data⟩

/-- Upserting the settled text into a transcript not ending in an assistant
message appends exactly one assistant message. -/
theorem upsert_fresh (ms0 : List Msg) (t : String)
    (hms : lastIsAssistant ms0 = false) :
    upsertAssistant t.data ⟨ms0, []⟩ = settledState ms0 t := by
  rw [upsertAssistant]
  cases hL : ms0.getLast? with
  | none => simp [settledState]
  | some m =>
    have hms' : (m.role == "assistant") = false := by
      rw [lastIsAssistant, hL] at hms
      exact hms
    simp [settledState, hL, hms']

/-- Consumer invariant: after the consumed prefix `p` of the encoded stream,
the buffer and state are determined (up to one leftover blank line at the
very end). -/
def Inv (t : String) (ms0 : List Msg) (p buf : List Char) (st : CState) : Prop :=
  (p = buf ∧ p <+: D1 t ∧ st = ⟨ms0, []⟩)
  ∨ (p = D1 t ++ ['\n'] ∧ buf = [] ∧ st = settledState ms0 t)
  ∨ (∃ r, r <+: D2 ∧ p = D1 t ++ '\n' :: '\n' :: r ∧ buf = r ∧ st = settledState ms0 t)
  ∨ (p = D1 t ++ '\n' :: '\n' :: (D2 ++ ['\n']) ∧ buf = [] ∧ st = settledState ms0 t)
  ∨ (p = sseEncode t ∧ (buf = [] ∨ buf = ['\n']) ∧ st = settledState ms0 t)

/-- A prefix of a singleton. -/
theorem prefix_singleton {l : List Char} {a : Char} (h : l <+: [a]) :
    l = [] ∨ l = [a] := by
  rcases h with ⟨u, hu⟩
  cases l with
  | nil => exact Or.inl rfl
  | cons x xs =>
    rw [List.cons_append] at hu
    injection hu with h1 h2
    subst h1
    have hxs : xs = [] := (List.append_eq_nil.mp h2).1
    subst hxs
    exact Or.inr rfl

/-- A prefix of a two-element list. -/
theorem prefix_two {l : List Char} {a b : Char} (h : l <+: [a, b]) :
    l = [] ∨ l = [a] ∨ l = [a, b] := by
  rcases h with ⟨u, hu⟩
  cases l with
  | nil => exact Or.inl rfl
  | cons x xs =>
    rw [List.cons_append] at hu
    injection hu with h1 h2
    subst h1
    cases xs with
    | nil => exact Or.inr (Or.inl rfl)
    | cons y ys =>
      rw [List.cons_append] at h2
      injection h2 with h3 h4
      subst h3
      have hys : ys = [] := (List.append_eq_nil.mp h4).1
      subst hys
      exact Or.inr (Or.inr rfl)

/-- Draining a lone blank line consumes it. -/
theorem drainB_nl (st : CState) : drainB ['\n'] st = ([], st) := rfl

/-- Draining an empty buffer is a no-op. -/
theorem drainB_nil (st : CState) : drainB [] st = ([], st) := rfl

/-- The tail flush ignores an empty buffer. -/
theorem flushTail_nil (st : CState) : flushTail [] st = st := rfl

/-- The tail flush ignores a lone blank line. -/
theorem flushTail_nl (st : CState) : flushTail ['\n'] st = st := rfl

/-- Append normalization: a cons after the first line. -/
theorem append_nl_cons (t : String) (x : List Char) :
    D1 t ++ '\n' :: x = (D1 t ++ ['\n']) ++ x := by
  simp

/-- Append normalization: two conses after the first line. -/
theorem append_nl2_cons (t : String) (x : List Char) :
    D1 t ++ '\n' :: '\n' :: x = (D1 t ++ ['\n', '\n']) ++ x := by
  simp

/-- Draining a buffer that is a factor of the stream starting at the
sentinel line. -/
theorem drain_from_D2 (t : String) (ms0 : List Msg) (r : List Char)
    (hr : r <+: D2 ++ ['\n', '\n']) :
    Inv t ms0 (D1 t ++ '\n' :: '\n' :: r)
      (drainB r (settledState ms0 t)).1 (drainB r (settledState ms0 t)).2 := by
  rcases List.prefix_or_prefix_of_prefix hr ( List.prefix_append D2 ['\n', '\n']) with h | h
  · have hnl : '\n' ∉ r := fun hm => no_nl_D2 (h.subset hm)
    rw [drainB, drain_no_nl _ _ _ hnl]
    exact Or.inr (Or.inr (Or.inl ⟨r, h, rfl, rfl, rfl⟩))
  · obtain ⟨r', rfl⟩ := h
    have hr' : r' <+: ['\n', '\n'] := ( List.prefix_append_right_inj D2).mp hr
    rcases prefix_two hr' with h0 | h0 | h0
    · subst h0
      rw [List.append_nil]
      rw [drainB, drain_no_nl _ _ _ no_nl_D2]
      exact Or.inr (Or.inr (Or.inl ⟨D2, List.prefix_refl D2, rfl, rfl, rfl⟩))
    · subst h0
      rw [drainB, show (D2 ++ ['\n']).length = D2.length + 1 from by simp,
        show (D2 ++ ['\n'] : List Char) = D2 ++ '\n' :: [] from rfl,
        drain_line D2.length D2 [] _ no_nl_D2, procLine_D2]
      exact Or.inr (Or.inr (Or.inr (Or.inl ⟨rfl, rfl, rfl⟩)))
    · subst h0
      rw [drainB, show (D2 ++ ['\n', '\n']).length = D2.length + 1 + 1 from by simp,
        show (D2 ++ ['\n', '\n'] : List Char) = D2 ++ '\n' :: ['\n'] from rfl,
        drain_line (D2.length + 1) D2 ['\n'] _ no_nl_D2, procLine_D2]
      exact Or.inr (Or.inr (Or.inr (Or.inr ⟨(sseEncode_decomp t).symm, Or.inr rfl, rfl⟩)))

/-- Draining a buffer that is a factor of the stream starting at the blank
line after the payload. -/
theorem drain_from_blank (t : String) (ms0 : List Msg) (q : List Char)
    (hq : q <+: '\n' :: (D2 ++ ['\n', '\n'])) :
    Inv t ms0 (D1 t ++ '\n' :: q)
      (drainB q (settledState ms0 t)).1 (drainB q (settledState ms0 t)).2 := by
  cases q with
  | nil =>
    rw [drainB_nil]
    exact Or.inr (Or.inl ⟨rfl, rfl, rfl⟩)
  | cons c q' =>
    obtain ⟨hc, hq'⟩ := List.cons_prefix_cons.mp hq
    subst hc
    rw [drainB, show ('\n' :: q').length = q'.length + 1 from rfl,
      show ('\n' :: q' : List Char) = [] ++ '\n' :: q' from rfl,
      drain_line q'.length [] q' _ (by simp), procLine_nil]
    exact drain_from_D2 t ms0 q' hq'

/-- Draining a prefix of the whole encoded stream from the initial state. -/
theorem drain_from_start (t : String) (ms0 : List Msg) (ht : t.data ≠ [])
    (hms : lastIsAssistant ms0 = false) (b : List Char) (hb : b <+: sseEncode t) :
    Inv t ms0 b (drainB b ⟨ms0, []⟩).1 (drainB b ⟨ms0, []⟩).2 := by
  rw [sseEncode_decomp] at hb
  have hD1n : D1 t ++ ['\n'] <+: D1 t ++ '\n' :: '\n' :: (D2 ++ ['\n', '\n']) :=
    ⟨'\n' :: (D2 ++ ['\n', '\n']), by simp⟩
  rcases List.prefix_or_prefix_of_prefix hb hD1n with h | h
  · rcases List.prefix_concat_iff.mp h with h0 | h0
    · subst h0
      rw [drainB, show (D1 t ++ ['\n']).length = (D1 t).length + 1 from by simp,
        show (D1 t ++ ['\n'] : List Char) = D1 t ++ '\n' :: [] from rfl,
        drain_line (D1 t).length (D1 t) [] _ (no_nl_D1 t), procLine_D1 t ht]
      simp only []
      rw [drain_nil, upsert_fresh ms0 t hms]
      exact Or.inr (Or.inl ⟨rfl, rfl, rfl⟩)
    · have hnl : '\n' ∉ b := fun hm => no_nl_D1 t (h0.subset hm)
      rw [drainB, drain_no_nl _ _ _ hnl]
      exact Or.inl ⟨rfl, h0, rfl⟩
  · obtain ⟨q, hq⟩ := h
    have hb' : b = D1 t ++ '\n' :: q := by rw [← hq]; simp
    subst hb'
    have hq' : q <+: '\n' :: (D2 ++ ['\n', '\n']) := by
      apply ( List.prefix_append_right_inj (D1 t ++ ['\n'])).mp
      rw [← append_nl_cons, ← append_nl_cons]
      exact hb
    rw [drainB,
      show (D1 t ++ '\n' :: q).length = ((D1 t).length + q.length) + 1 from by
        simp [List.length_append]; omega,
      drain_line ((D1 t).length + q.length) (D1 t) q _ (no_nl_D1 t), procLine_D1 t ht]
    simp only []
    rw [upsert_fresh ms0 t hms,
      drain_eq_drainB ((D1 t).length + q.length) q _ (Nat.le_add_left _ _)]
    exact drain_from_blank t ms0 q hq'

/-- One read chunk preserves the consumer invariant. -/
theorem inv_step (t : String) (ms0 : List Msg) (ht : t.data ≠ [])
    (hms : lastIsAssistant ms0 = false) (p buf : List Char) (st : CState)
    (c : List Char) (hInv : Inv t ms0 p buf st)
    (hpre : (p ++ c) <+: sseEncode t) :
    Inv t ms0 (p ++ c) (feedChunk (buf, st) c).1 (feedChunk (buf, st) c).2 := by
  rcases hInv with ⟨hpb, hpD1, hst⟩ | ⟨hp, hbuf, hst⟩ | ⟨r, hrD2, hp, hbuf, hst⟩
    | ⟨hp, hbuf, hst⟩ | ⟨hp, hbuf, hst⟩
  · subst hpb
    subst hst
    exact drain_from_start t ms0 ht hms (p ++ c) hpre
  · subst hp
    subst hbuf
    subst hst
    have hc : c <+: '\n' :: (D2 ++ ['\n', '\n']) := by
      apply ( List.prefix_append_right_inj (D1 t ++ ['\n'])).mp
      rw [← append_nl_cons, ← append_nl_cons]
      rw [sseEncode_decomp] at hpre
      rw [← append_nl_cons] at hpre
      exact hpre
    rw [show (D1 t ++ ['\n']) ++ c = D1 t ++ '\n' :: c from by simp]
    exact drain_from_blank t ms0 c hc
  · subst hp
    subst hbuf
    subst hst
    have hrc : buf ++ c <+: D2 ++ ['\n', '\n'] := by
      apply ( List.prefix_append_right_inj (D1 t ++ ['\n', '\n'])).mp
      rw [← List.append_assoc, ← append_nl2_cons, ← append_nl2_cons]
      rw [sseEncode_decomp] at hpre
      exact hpre
    rw [show (D1 t ++ '\n' :: '\n' :: buf) ++ c = D1 t ++ '\n' :: '\n' :: (buf ++ c) from by simp]
    exact drain_from_D2 t ms0 (buf ++ c) hrc
  · subst hp
    subst hbuf
    subst hst
    have hEp : sseEncode t = (D1 t ++ '\n' :: '\n' :: (D2 ++ ['\n'])) ++ ['\n'] := by
      rw [sseEncode_decomp]
      simp
    have hc : c <+: ['\n'] := by
      apply ( List.prefix_append_right_inj (D1 t ++ '\n' :: '\n' :: (D2 ++ ['\n']))).mp
      rw [← hEp]
      exact hpre
    rcases prefix_singleton hc with h0 | h0 <;> subst h0
    · rw [List.append_nil]
      rw [show feedChunk (([] : List Char), settledState ms0 t) []
          = ([], settledState ms0 t) from rfl]
      exact Or.inr (Or.inr (Or.inr (Or.inl ⟨rfl, rfl, rfl⟩)))
    · rw [show feedChunk (([] : List Char), settledState ms0 t) ['\n']
          = ([], settledState ms0 t) from rfl]
      exact Or.inr (Or.inr (Or.inr (Or.inr ⟨hEp.symm, Or.inl rfl, rfl⟩)))
  · subst hp
    subst hst
    have hc : c = [] := by
      have hlen := hpre.length_le
      simp only [List.length_append] at hlen
      have hlen0 : c.length = 0 := by omega
      exact List.eq_nil_of_length_eq_zero hlen0
    subst hc
    rw [List.append_nil]
    rcases hbuf with h0 | h0 <;> subst h0
    · rw [show feedChunk (([] : List Char), settledState ms0 t) []
          = ([], settledState ms0 t) from rfl]
      exact Or.inr (Or.inr (Or.inr (Or.inr ⟨rfl, Or.inl rfl, rfl⟩)))
    · rw [show feedChunk ((['\n'] : List Char), settledState ms0 t) []
          = ([], settledState ms0 t) from rfl]
      exact Or.inr (Or.inr (Or.inr (Or.inr ⟨rfl, Or.inl rfl, rfl⟩)))

/-- Feeding all chunks preserves the consumer invariant. -/
theorem inv_fold (t : String) (ms0 : List Msg) (ht : t.data ≠ [])
    (hms : lastIsAssistant ms0 = false) :
    ∀ (chunks : List (List Char)) (p buf : List Char) (st : CState),
      Inv t ms0 p buf st → (p ++ chunks.flatten) <+: sseEncode t →
      Inv t ms0 (p ++ chunks.flatten)
        (chunks.foldl feedChunk (buf, st)).1 (chunks.foldl feedChunk (buf, st)).2 := by
  intro chunks
  induction chunks with
  | nil =>
    intro p buf st h hp
    simpa using h
  | cons c cs ih =>
    intro p buf st h hp
    have hjoin : p ++ (c :: cs).flatten = (p ++ c) ++ cs.flatten := by
      simp [List.flatten, List.append_assoc]
    have hpc : (p ++ c) <+: sseEncode t :=
      List.IsPrefix.trans ( List.prefix_append (p ++ c) cs.flatten)
        (by rw [← hjoin]; exact hp)
    have hstep := inv_step t ms0 ht hms p buf st c h hpc
    have hrec := ih (p ++ c) (feedChunk (buf, st) c).1 (feedChunk (buf, st) c).2 hstep
      (by rw [← hjoin]; exact hp)
    rw [hjoin]
    rw [List.foldl_cons]
    exact hrec

/-- Once the whole stream has been consumed, the invariant pins down the
state: the settled answer has been upserted and only an ignorable blank
line may remain buffered. -/
theorem inv_at_end (t : String) (ms0 : List Msg) (buf : List Char) (st : CState)
    (h : Inv t ms0 (sseEncode t) buf st) :
    (buf = [] ∨ buf = ['\n']) ∧ st = settledState ms0 t := by
  rcases h with ⟨hpb, hpD1, _⟩ | ⟨hp, _, _⟩ | ⟨r, hrD2, hp, _, _⟩ | ⟨hp, _, _⟩
    | ⟨_, hbuf, hst⟩
  · exfalso
    have hle := hpD1.length_le
    rw [sseEncode_decomp] at hle
    simp only [List.length_append, List.length_cons] at hle
    omega
  · exfalso
    rw [sseEncode_decomp] at hp
    have hlen := congrArg List.length hp
    simp only [List.length_append, List.length_cons] at hlen
    omega
  · exfalso
    rw [sseEncode_decomp] at hp
    have hlen := congrArg List.length hp
    have hrle := hrD2.length_le
    simp only [List.length_append, List.length_cons] at hlen
    omega
  · exfalso
    rw [sseEncode_decomp] at hp
    have hlen := congrArg List.length hp
    simp only [List.length_append, List.length_cons] at hlen
    omega
  · exact ⟨hbuf, hst⟩

/-- C1: round-trip through the streaming layer.  For every non-empty
settled answer `t` (settled answers are never empty, see
`orFallback_ne_empty`), feeding the encoder's byte stream to the Client
Stream Consumer under ANY segmentation into read chunks — including chunk
boundaries in the middle of a `data:` line — appends exactly one assistant
message with content `t` to a visible transcript not already ending in an
assistant message, and nothing else. -/
theorem c1_stream_roundtrip (t : String) (ht : t ≠ "") (chunks : List (List Char))
    (hjoin : chunks.flatten = sseEncode t) (ms0 : List Msg)
    (hms : lastIsAssistant ms0 = false) :
    (runConsumer chunks ms0).msgs = ms0 ++ [⟨"assistant", t.data⟩] := by
  have htd : t.data ≠ [] := fun h => ht (String.ext (by rw [h]))
  have h0 : Inv t ms0 [] [] ⟨ms0, []⟩ := Or.inl ⟨rfl, List.nil_prefix, rfl⟩
  have hfold := inv_fold t ms0 htd hms chunks [] [] ⟨ms0, []⟩ h0
    (by rw [List.nil_append, hjoin])
  rw [List.nil_append, hjoin] at hfold
  obtain ⟨hbuf, hst⟩ := inv_at_end t ms0 _ _ hfold
  simp only [runConsumer]
  rcases hbuf with h | h <;> rw [h, hst]
  · rw [flushTail_nil]
    rfl
  · rw [flushTail_nl]
    rfl

/-- C1, witness: the spec's example answer, with a chunk boundary in the
middle of the `data:` line (after 17 bytes). -/
theorem c1_stream_roundtrip_witness :
    (runConsumer [(sseEncode "Added task: \"Buy milk\"").take 17,
        (sseEncode "Added task: \"Buy milk\"").drop 17]
      [⟨"user", "add buy milk".data⟩]).msgs
      = [⟨"user", "add buy milk".data⟩]
          ++ [⟨"assistant", ("Added task: \"Buy milk\"" : String).data⟩] :=
  c1_stream_roundtrip "Added task: \"Buy milk\"" (by decide)
    [(sseEncode "Added task: \"Buy milk\"").take 17,
     (sseEncode "Added task: \"Buy milk\"").drop 17]
    (by simp [List.flatten]) [⟨"user", "add buy milk".data⟩] (by decide)

end TodoChat
